import Mathlib

/-!
# HT1621 bit-banged LCD driver (`ts206.c`)

A shallow embedding of the driver in `ts206.c`.  The GPIO capability
(`pinMode`, `digitalWrite`, `delayMicroseconds`) is modelled as a recording
backend: every call appends one event to a log.  The three module-level pin
variables and that log form the program state, which every driver function
takes and returns.  `uint8_t` values are natural numbers reduced modulo 256
at every place where the C code stores into a `uint8_t`.
-/

namespace HT1621

/-! ## GPIO capability -/

/-- Logic level of a digital line (`LOW` / `HIGH` of wiringPi). -/
inductive Level where
  | LOW
  | HIGH
  deriving DecidableEq, Repr

/-- Pin direction (`INPUT` / `OUTPUT` of wiringPi). -/
inductive PinMode where
  | INPUT
  | OUTPUT
  deriving DecidableEq, Repr

/-- One call of the GPIO capability, as seen by a recording backend. -/
inductive Event where
  | pinMode (pin : Nat) (mode : PinMode)
  | digitalWrite (pin : Nat) (level : Level)
  | delayMicroseconds (us : Nat)
  deriving DecidableEq, Repr

/-- Program state: the three module-level pin variables `_DATA_pin`,
`_RW_pin`, `_CS_pin`, the bytes that lie in memory past the end of the
`pattern` array (what an out-of-bounds `pattern[num]` reads), and the log of
GPIO calls made so far. -/
structure State where
  _DATA_pin : Nat
  _RW_pin : Nat
  _CS_pin : Nat
  past_pattern : Nat → Nat
  trace : List Event

/-- Record `pinMode(pin, mode)`. -/
def pinMode (s : State) (pin : Nat) (mode : PinMode) : State :=
  { s with trace := s.trace ++ [Event.pinMode pin mode] }

/-- Record `digitalWrite(pin, level)`. -/
def digitalWrite (s : State) (pin : Nat) (level : Level) : State :=
  { s with trace := s.trace ++ [Event.digitalWrite pin level] }

/-- Record `delayMicroseconds(us)`. -/
def delayMicroseconds (s : State) (us : Nat) : State :=
  { s with trace := s.trace ++ [Event.delayMicroseconds us] }

/-! ## Constants of `ts206.c` -/

/-- The segment pattern table `pattern[]` (17 entries). -/
def pattern : List Nat :=
  [ 0xf5, 0x05, 0xd3, 0x97, 0x27, 0xb6, 0xf6, 0x15, 0xf7, 0xb7,
    0x02, 0x80, 0x67, 0xf2, 0xe0, 0x73, 0x00 ]

/-- Command `SYS_EN` of `enum Commands`. -/
def SYS_EN : Nat := 0x02
/-- Command `LCD_ON` of `enum Commands`. -/
def LCD_ON : Nat := 0x06
/-- Command `RC256K` of `enum Commands`. -/
def RC256K : Nat := 0x30
/-- Command `BIAS_THIRD_4_COM` of `enum Commands`. -/
def BIAS_THIRD_4_COM : Nat := 0x52
/-- Mode selector `COMMAND_MODE` of `enum Commands`. -/
def COMMAND_MODE : Nat := 0x80
/-- Mode selector `WRITE_MODE` of `enum Commands`. -/
def WRITE_MODE : Nat := 0xa0

/-! ## Driver functions -/

/-- The macro `TAKE_CS()`: `digitalWrite(_CS_pin, LOW)`. -/
def TAKE_CS (s : State) : State := digitalWrite s s._CS_pin Level.LOW

/-- The macro `RELEASE_CS()`: `digitalWrite(_CS_pin, HIGH)`. -/
def RELEASE_CS (s : State) : State := digitalWrite s s._CS_pin Level.HIGH

/-- The function `HT1621_begin(cs, rw, data)`: the arguments are `uint8_t`. -/
def HT1621_begin (s : State) (cs rw data : Nat) : State :=
  let s := { s with _DATA_pin := data % 256 }
  let s := { s with _RW_pin := rw % 256 }
  let s := { s with _CS_pin := cs % 256 }
  let s := pinMode s s._DATA_pin PinMode.OUTPUT
  let s := pinMode s s._RW_pin PinMode.OUTPUT
  let s := pinMode s s._CS_pin PinMode.OUTPUT
  let s := digitalWrite s s._CS_pin Level.HIGH
  let s := digitalWrite s s._RW_pin Level.HIGH
  digitalWrite s s._DATA_pin Level.HIGH

/-- The loop of `HT1621_writeBits`,
`for(i=0;i<cnt;i++,data <<=1) { ... }`, entered with the current values of
`data` and `i`.  `cnt` is a `uint8_t`, so the value compared with `i` is
`cnt % 256`; `i++` and `data <<= 1` store into `uint8_t` variables. -/
def HT1621_writeBits.loop (s : State) (data cnt i : Nat) : State :=
  if i < cnt % 256 then
    let s := digitalWrite s s._RW_pin Level.LOW
    let s := delayMicroseconds s 20
    let s := digitalWrite s s._DATA_pin
      (if data &&& 0x80 ≠ 0 then Level.HIGH else Level.LOW)
    let s := delayMicroseconds s 20
    let s := digitalWrite s s._RW_pin Level.HIGH
    let s := delayMicroseconds s 20
    HT1621_writeBits.loop s ((data <<< 1) % 256) cnt ((i + 1) % 256)
  else
    s
termination_by cnt % 256 - i
decreasing_by omega

/-- The function `HT1621_writeBits(data, cnt)`: `data` is converted to
`uint8_t` on entry and the loop starts at `i = 0`. -/
def HT1621_writeBits (s : State) (data cnt : Nat) : State :=
  HT1621_writeBits.loop s (data % 256) cnt 0

/-- The function `HT1621_write(address, data)`. -/
def HT1621_write (s : State) (address data : Nat) : State :=
  let s := TAKE_CS s
  let s := HT1621_writeBits s WRITE_MODE 3
  let s := HT1621_writeBits s ((address % 256) <<< 3) 6
  let s := HT1621_writeBits s data 8
  RELEASE_CS s

/-- The function `HT1621_sendCommand(cmd)`. -/
def HT1621_sendCommand (s : State) (cmd : Nat) : State :=
  let s := TAKE_CS s
  let s := HT1621_writeBits s COMMAND_MODE 4
  let s := HT1621_writeBits s cmd 8
  RELEASE_CS s

/-- The function `HT1621_init()`. -/
def HT1621_init (s : State) : State :=
  let s := HT1621_sendCommand s RC256K
  let s := HT1621_sendCommand s BIAS_THIRD_4_COM
  let s := HT1621_sendCommand s SYS_EN
  HT1621_sendCommand s LCD_ON

/-- The loop of `HT1621_clear`, `for (i = 0; i < places; i++)`, entered
with the current value of the `uint8_t` counter `i`. -/
def HT1621_clear.loop (s : State) (places i : Nat) : State :=
  if i < places % 256 then
    HT1621_clear.loop (HT1621_write s i 0) places ((i + 1) % 256)
  else
    s
termination_by places % 256 - i
decreasing_by omega

/-- The function `HT1621_clear(places)`. -/
def HT1621_clear (s : State) (places : Nat) : State :=
  HT1621_clear.loop s places 0

/-- The array read `pattern[num]` with a `uint8_t` index: an entry of the
table when `num < 17`, otherwise the byte that memory holds past the table. -/
def pattern_read (s : State) (num : Nat) : Nat :=
  match pattern[num % 256]? with
  | some b => b
  | none => s.past_pattern (num % 256) % 256

/-- The function `HT1621_setNum(adr, num)`. -/
def HT1621_setNum (s : State) (adr num : Nat) : State :=
  HT1621_write s adr (pattern_read s num)

/-- The function `HT1621_setDotNum(adr, num)`. -/
def HT1621_setDotNum (s : State) (adr num : Nat) : State :=
  HT1621_write s adr (pattern_read s num ||| 0x08)

/-! ## Observation of a recorded trace -/

/-- The events a call appended to the log: what the log of the final state
`s'` holds beyond the log of the initial state `s`. -/
def emitted (s s' : State) : List Event :=
  s'.trace.drop s.trace.length

/-- The six GPIO calls of one iteration of the serializer loop on clock pin
`rw` and data pin `dat`, for the current `uint8_t` value `data`. -/
def bitGroup (rw dat data : Nat) : List Event :=
  [ Event.digitalWrite rw Level.LOW,
    Event.delayMicroseconds 20,
    Event.digitalWrite dat (if data &&& 0x80 ≠ 0 then Level.HIGH else Level.LOW),
    Event.delayMicroseconds 20,
    Event.digitalWrite rw Level.HIGH,
    Event.delayMicroseconds 20 ]

/-- The groups of `n` successive iterations: after each group the value is
shifted left by one and reduced modulo 256. -/
def bitGroups (rw dat : Nat) : Nat → Nat → List Event
  | _, 0 => []
  | data, n + 1 => bitGroup rw dat data ++ bitGroups rw dat ((data <<< 1) % 256) n

/-- What a receiver on clock pin `rw` and data pin `dat` latches from a
trace: the lines start at levels `c` (clock) and `d` (data), every
`digitalWrite` updates the line(s) bound to its pin, and each time the clock
line goes from `LOW` to `HIGH` the level of the data line is recorded. -/
def latched (rw dat : Nat) : Level → Level → List Event → List Level
  | _, _, [] => []
  | c, d, Event.digitalWrite p l :: es =>
    let c' := if p = rw then l else c
    let d' := if p = dat then l else d
    if c = Level.LOW ∧ c' = Level.HIGH then d' :: latched rw dat c' d' es
    else latched rw dat c' d' es
  | c, d, _ :: es => latched rw dat c d es

/-- The number a sequence of levels spells, `HIGH` being 1 and the first
level the most significant bit. -/
def bitsToNat (ls : List Level) : Nat :=
  ls.foldl (fun acc l => 2 * acc + (if l = Level.HIGH then 1 else 0)) 0

/-- The `n` most significant bits of the 8-bit value `v`, first bit first,
as levels. -/
def topBits (v : Nat) : Nat → List Level
  | 0 => []
  | n + 1 => (if 128 ≤ v % 256 then Level.HIGH else Level.LOW) :: topBits (2 * v % 256) n

/-- The level of the line bound to `pin` after a trace, given its level
`init` before: the level of the last `digitalWrite` to `pin`, if any. -/
def lineLevel (pin : Nat) : Level → List Event → Level
  | init, [] => init
  | init, Event.digitalWrite p l :: es => lineLevel pin (if p = pin then l else init) es
  | init, _ :: es => lineLevel pin init es

/-- The state in which the program starts: the three pin variables are
zero-initialised globals and nothing has been logged.  The bytes past the
table are taken to be zero. -/
def startup : State :=
  { _DATA_pin := 0, _RW_pin := 0, _CS_pin := 0, past_pattern := fun _ => 0, trace := [] }

/-- The state after `HT1621_begin(CS, RW, DATA)` with the pin numbers
`CS = 2`, `RW = 1`, `DATA = 0` that `main` uses. -/
def wired : State := HT1621_begin startup 2 1 0

/-- The state after `HT1621_begin(2, 1, 1)`: data and clock bound to the
same pin. -/
def shorted : State := HT1621_begin startup 2 1 1

/-- The levels a trace writes to `pin`, in order. -/
def writesTo (pin : Nat) : List Event → List Level
  | [] => []
  | Event.digitalWrite p l :: es =>
    if p = pin then l :: writesTo pin es else writesTo pin es
  | _ :: es => writesTo pin es

/-- A frame on chip-select pin `cs`: chip-select is driven `LOW`, the
events of `body` follow, and chip-select is driven `HIGH`. -/
def frame (cs : Nat) (body : List Event) : List Event :=
  Event.digitalWrite cs Level.LOW :: (body ++ [Event.digitalWrite cs Level.HIGH])

/-- The GPIO calls that `HT1621_write(address, data)` makes while
chip-select is asserted, on clock pin `rw` and data pin `dat`. -/
def writeBody (rw dat address data : Nat) : List Event :=
  bitGroups rw dat WRITE_MODE 3 ++
    (bitGroups rw dat (((address % 256) <<< 3) % 256) 6 ++
      bitGroups rw dat (data % 256) 8)

/-- The GPIO calls that `HT1621_sendCommand(cmd)` makes while chip-select
is asserted, on clock pin `rw` and data pin `dat`. -/
def commandBody (rw dat cmd : Nat) : List Event :=
  bitGroups rw dat COMMAND_MODE 4 ++ bitGroups rw dat (cmd % 256) 8

/-- The GPIO calls of one `HT1621_write(address, data)` on chip-select pin
`cs`, clock pin `rw` and data pin `dat`. -/
def writeFrame (cs rw dat address data : Nat) : List Event :=
  frame cs (writeBody rw dat address data)

/-- The GPIO calls of one `HT1621_sendCommand(cmd)` on chip-select pin
`cs`, clock pin `rw` and data pin `dat`. -/
def commandFrame (cs rw dat cmd : Nat) : List Event :=
  frame cs (commandBody rw dat cmd)

/-- The frames of `HT1621_write(i, 0)`, ..., `HT1621_write(i + n - 1, 0)`,
one after the other. -/
def clearFrames (cs rw dat : Nat) : Nat → Nat → List Event
  | _, 0 => []
  | i, n + 1 => writeFrame cs rw dat i 0 ++ clearFrames cs rw dat (i + 1) n

/-- The sum of the delays a trace requests, in microseconds. -/
def totalDelay : List Event → Nat
  | [] => 0
  | Event.delayMicroseconds us :: es => us + totalDelay es
  | _ :: es => totalDelay es

/-- Levels that strictly alternate `LOW`, `HIGH`, `LOW`, `HIGH`, ...: the
first is `LOW` and the last is `HIGH`. -/
def alternating : List Level → Bool
  | [] => true
  | Level.LOW :: Level.HIGH :: ls => alternating ls
  | _ => false

/-- The chip-select discipline of a trace on chip-select pin `cs`, clock
pin `rw` and data pin `dat`:
* `alternate`: the chip-select writes alternate `LOW`, `HIGH`, ..., from a
  first `LOW` to a last `HIGH`;
* `inside`: for every write to the clock or the data pin, the latest
  chip-select write before it is a `LOW` and the next chip-select write
  after it is a `HIGH`;
* `release`: every chip-select `HIGH` comes immediately after the
  20-microsecond delay that follows a clock `HIGH`, the end of a bit. -/
structure Disciplined (cs rw dat : Nat) (tr : List Event) : Prop where
  alternate : alternating (writesTo cs tr) = true
  inside : ∀ (pre post : List Event) (p : Nat) (l : Level),
    tr = pre ++ Event.digitalWrite p l :: post → p = rw ∨ p = dat →
    (writesTo cs pre).getLast? = some Level.LOW ∧
      (writesTo cs post).head? = some Level.HIGH
  release : ∀ (pre post : List Event),
    tr = pre ++ Event.digitalWrite cs Level.HIGH :: post →
    ∃ pre', pre = pre' ++ [Event.digitalWrite rw Level.HIGH, Event.delayMicroseconds 20]

/-- The eight segment lines of one digit, named as in the header comment of
`ts206.c`: `a` to `g` are the seven strokes and `h` is the dot. -/
inductive Segment where
  | a
  | b
  | c
  | d
  | e
  | f
  | g
  | h
  deriving DecidableEq, Repr

/-- The bit of a segment in a pattern byte.  The header comment of `ts206.c`
lists the byte, from bit 7 down to bit 0, as `d e f a h c g b`. -/
def Segment.bit : Segment → Nat
  | Segment.d => 7
  | Segment.e => 6
  | Segment.f => 5
  | Segment.a => 4
  | Segment.h => 3
  | Segment.c => 2
  | Segment.g => 1
  | Segment.b => 0

/-- The segments a pattern byte lights, in the order `a` to `h`. -/
def litSegments (byte : Nat) : List Segment :=
  [Segment.a, Segment.b, Segment.c, Segment.d, Segment.e, Segment.f, Segment.g,
    Segment.h].filter (fun x => byte.testBit x.bit)

/-- An event that leaves the pin configuration alone and drives no pin
other than `cs`, `rw` and `dat`: a write to one of the three, or a delay. -/
def onBoundPins (cs rw dat : Nat) : Event → Bool
  | Event.digitalWrite p _ => decide (p = cs ∨ p = rw ∨ p = dat)
  | Event.delayMicroseconds _ => true
  | Event.pinMode _ _ => false

/-- A call that took the state from `s` to `s'` kept the pin binding: the
three pin variables are unchanged and every event it emitted is a delay or a
write to one of the three bound pins. -/
def KeepsBinding (s s' : State) : Prop :=
  s'._DATA_pin = s._DATA_pin ∧ s'._RW_pin = s._RW_pin ∧ s'._CS_pin = s._CS_pin ∧
    ∀ e ∈ emitted s s', onBoundPins s._CS_pin s._RW_pin s._DATA_pin e = true

/-- The six GPIO calls that clock one data-line level `l` out: clock `LOW`,
delay, data := `l`, delay, clock `HIGH`, delay. -/
def bitCell (rw dat : Nat) (l : Level) : List Event :=
  [ Event.digitalWrite rw Level.LOW,
    Event.delayMicroseconds 20,
    Event.digitalWrite dat l,
    Event.delayMicroseconds 20,
    Event.digitalWrite rw Level.HIGH,
    Event.delayMicroseconds 20 ]

/-- The GPIO calls that clock a sequence of data-line levels out, one
`bitCell` per level. -/
def sendLevels (rw dat : Nat) (ls : List Level) : List Event :=
  (ls.map (bitCell rw dat)).flatten

/-- Bit `k` of `v` as a level: `HIGH` when the bit is set. -/
def levelOfBit (v k : Nat) : Level :=
  if v.testBit k then Level.HIGH else Level.LOW

/-- One call of a frame-emitting driver function, with its arguments. -/
inductive Call where
  | write (address data : Nat)
  | sendCommand (cmd : Nat)
  | init
  | clear (places : Nat)
  | setNum (adr num : Nat)
  | setDotNum (adr num : Nat)
  deriving DecidableEq, Repr

/-- Make one call in state `s`. -/
def Call.run (s : State) : Call → State
  | Call.write address data => HT1621_write s address data
  | Call.sendCommand cmd => HT1621_sendCommand s cmd
  | Call.init => HT1621_init s
  | Call.clear places => HT1621_clear s places
  | Call.setNum adr num => HT1621_setNum s adr num
  | Call.setDotNum adr num => HT1621_setDotNum s adr num

/-- Make a sequence of calls, one after the other. -/
def runCalls (s : State) : List Call → State
  | [] => s
  | call :: calls => runCalls (call.run s) calls

/-- The pattern index of a digit call is within the table (at most 16);
other calls take any arguments. -/
def Call.indexInTable : Call → Bool
  | Call.setNum _ num => decide (num ≤ 16)
  | Call.setDotNum _ num => decide (num ≤ 16)
  | _ => true

/-- The bus is idle in state `s`: the latest level written to the
chip-select pin and the latest level written to the clock pin are both
`HIGH`.  The level `c` stands for the level of a line that has never been
written. -/
def Idle (c : Level) (s : State) : Prop :=
  lineLevel s._CS_pin c s.trace = Level.HIGH ∧ lineLevel s._RW_pin c s.trace = Level.HIGH

/-- The control flow of the loop of `HT1621_writeBits` on its own,
`for(i=0;i<cnt;i++,...)` with `uint8_t` variables `i` and `cnt`, entered with
the current value of `i`: the number of times the body runs and the value of
`i` when the loop exits. -/
def HT1621_writeBits.control (cnt i : Nat) : Nat × Nat :=
  if i < cnt % 256 then
    ((HT1621_writeBits.control cnt ((i + 1) % 256)).1 + 1,
      (HT1621_writeBits.control cnt ((i + 1) % 256)).2)
  else
    (0, i)
termination_by cnt % 256 - i
decreasing_by all_goals omega

/-- The 17 levels `HT1621_write(address, data)` puts on the data line, in
order: the top 3 bits of `WRITE_MODE`, the top 6 bits of the byte
`address << 3` and the 8 bits of `data`. -/
def writeLevels (address data : Nat) : List Level :=
  topBits WRITE_MODE 3 ++
    (topBits (((address % 256) <<< 3) % 256) 6 ++ topBits (data % 256) 8)

/-- The 12 levels `HT1621_sendCommand(cmd)` puts on the data line, in
order: the top 4 bits of `COMMAND_MODE` and the 8 bits of `cmd`. -/
def commandLevels (cmd : Nat) : List Level :=
  topBits COMMAND_MODE 4 ++ topBits (cmd % 256) 8

/-! ## Basic facts about the driver functions -/

theorem emitted_append (s s' : State) (es : List Event)
    (h : s'.trace = s.trace ++ es) : emitted s s' = es := by
  simp [emitted, h]

theorem writeBits_loop_eq (n : Nat) : ∀ (s : State) (data cnt i : Nat),
    cnt % 256 - i = n →
    HT1621_writeBits.loop s data cnt i =
      { s with trace := s.trace ++ bitGroups s._RW_pin s._DATA_pin data n } := by
  induction n with
  | zero =>
    intro s data cnt i h
    rw [HT1621_writeBits.loop, if_neg (by omega)]
    simp [bitGroups]
  | succ n ih =>
    intro s data cnt i h
    rw [HT1621_writeBits.loop, if_pos (by omega)]
    have hi : (i + 1) % 256 = i + 1 := Nat.mod_eq_of_lt (by omega)
    simp only [hi]
    rw [ih _ _ _ _ (by omega)]
    simp [bitGroups, bitGroup, digitalWrite, delayMicroseconds]

theorem writeBits_eq (s : State) (data cnt : Nat) :
    HT1621_writeBits s data cnt =
      { s with trace := s.trace ++
          bitGroups s._RW_pin s._DATA_pin (data % 256) (cnt % 256) } := by
  unfold HT1621_writeBits
  exact writeBits_loop_eq (cnt % 256) s (data % 256) cnt 0 (by omega)

theorem emitted_writeBits (s : State) (data cnt : Nat) :
    emitted s (HT1621_writeBits s data cnt) =
      bitGroups s._RW_pin s._DATA_pin (data % 256) (cnt % 256) := by
  rw [writeBits_eq]
  exact emitted_append _ _ _ rfl

theorem latched_append (rw dat : Nat) (a b : List Event) : ∀ (c d : Level),
    latched rw dat c d (a ++ b) =
      latched rw dat c d a ++ latched rw dat (lineLevel rw c a) (lineLevel dat d a) b := by
  induction a with
  | nil => intro c d; simp [latched, lineLevel]
  | cons e es ih =>
    intro c d
    cases e with
    | pinMode p m => simpa [latched, lineLevel] using ih c d
    | delayMicroseconds us => simpa [latched, lineLevel] using ih c d
    | digitalWrite p l =>
      have e := ih (if p = rw then l else c) (if p = dat then l else d)
      simp only [List.cons_append, latched, lineLevel]
      by_cases hc : c = Level.LOW ∧ (if p = rw then l else c) = Level.HIGH
      · rw [if_pos hc, if_pos hc]; exact congrArg (List.cons _) e
      · rw [if_neg hc, if_neg hc]; exact e

theorem lineLevel_append (pin : Nat) (a b : List Event) : ∀ (init : Level),
    lineLevel pin init (a ++ b) = lineLevel pin (lineLevel pin init a) b := by
  induction a with
  | nil => intro init; rfl
  | cons e es ih =>
    intro init
    cases e <;> simp [lineLevel, ih]

set_option maxRecDepth 100000 in
theorem msb_set_iff : ∀ v < 256, (v &&& 0x80 ≠ 0) ↔ 128 ≤ v := by
  decide

set_option maxRecDepth 100000 in
theorem bitsToNat_topBits : ∀ v < 256, ∀ n < 9,
    bitsToNat (topBits v n) = v / 2 ^ (8 - n) := by
  decide

theorem topBits_length (n : Nat) : ∀ v, (topBits v n).length = n := by
  induction n with
  | zero => intro v; rfl
  | succ n ih => intro v; simp [topBits, ih]

theorem latched_bitGroup (rw dat data : Nat) (h : dat ≠ rw) (hd : data < 256)
    (c d : Level) :
    latched rw dat c d (bitGroup rw dat data) =
      [if 128 ≤ data % 256 then Level.HIGH else Level.LOW] := by
  have hm := msb_set_iff data hd
  have h' : rw ≠ dat := fun e => h e.symm
  rw [Nat.mod_eq_of_lt hd]
  by_cases hb : 128 ≤ data
  · have : data &&& 0x80 ≠ 0 := hm.mpr hb
    simp [bitGroup, latched, h, h', this, hb]
  · have : ¬ (data &&& 0x80 ≠ 0) := fun x => hb (hm.mp x)
    simp [bitGroup, latched, h, h', hb]
    simpa using this

theorem latched_bitGroups (rw dat : Nat) (h : dat ≠ rw) (n : Nat) :
    ∀ (data : Nat) (c d : Level), data < 256 →
      latched rw dat c d (bitGroups rw dat data n) = topBits data n := by
  induction n with
  | zero => intro data c d _; rfl
  | succ n ih =>
    intro data c d hd
    have hs : (data <<< 1) % 256 = 2 * data % 256 := by
      rw [Nat.shiftLeft_eq]; simp [Nat.mul_comm]
    simp only [bitGroups, topBits]
    rw [latched_append, latched_bitGroup rw dat data h hd, ih _ _ _ (Nat.mod_lt _ (by decide)), hs]
    rfl

theorem write_eq (s : State) (address data : Nat) :
    HT1621_write s address data =
      { s with trace := s.trace ++
          writeFrame s._CS_pin s._RW_pin s._DATA_pin address data } := by
  simp [HT1621_write, TAKE_CS, RELEASE_CS, writeBits_eq, digitalWrite, writeFrame, frame,
    writeBody, WRITE_MODE]

theorem sendCommand_eq (s : State) (cmd : Nat) :
    HT1621_sendCommand s cmd =
      { s with trace := s.trace ++
          commandFrame s._CS_pin s._RW_pin s._DATA_pin cmd } := by
  simp [HT1621_sendCommand, TAKE_CS, RELEASE_CS, writeBits_eq, digitalWrite, commandFrame,
    frame, commandBody, COMMAND_MODE]

theorem emitted_write (s : State) (address data : Nat) :
    emitted s (HT1621_write s address data) =
      writeFrame s._CS_pin s._RW_pin s._DATA_pin address data := by
  rw [write_eq]
  exact emitted_append _ _ _ rfl

theorem emitted_sendCommand (s : State) (cmd : Nat) :
    emitted s (HT1621_sendCommand s cmd) =
      commandFrame s._CS_pin s._RW_pin s._DATA_pin cmd := by
  rw [sendCommand_eq]
  exact emitted_append _ _ _ rfl

/-! ## Frames: what a receiver latches between chip-select assert and release -/

theorem writesTo_append (pin : Nat) (a b : List Event) :
    writesTo pin (a ++ b) = writesTo pin a ++ writesTo pin b := by
  induction a with
  | nil => rfl
  | cons e es ih =>
    cases e with
    | pinMode p m => simpa [writesTo] using ih
    | delayMicroseconds us => simpa [writesTo] using ih
    | digitalWrite p l =>
      by_cases hp : p = pin <;> simp [writesTo, hp, ih]

theorem writesTo_bitGroups_other (pin rw dat : Nat) (h1 : rw ≠ pin) (h2 : dat ≠ pin)
    (n : Nat) : ∀ data, writesTo pin (bitGroups rw dat data n) = [] := by
  induction n with
  | zero => intro data; rfl
  | succ n ih =>
    intro data
    simp [bitGroups, bitGroup, writesTo, h1, h2, ih]

theorem latched_other_pin (rw dat pin : Nat) (l c d : Level) (es : List Event)
    (h1 : pin ≠ rw) (h2 : pin ≠ dat) :
    latched rw dat c d (Event.digitalWrite pin l :: es) = latched rw dat c d es := by
  cases c <;> simp [latched, h1, h2]

theorem latched_frame (cs rw dat : Nat) (body : List Event) (c d : Level)
    (h1 : cs ≠ rw) (h2 : cs ≠ dat) :
    latched rw dat c d (frame cs body) = latched rw dat c d body := by
  unfold frame
  rw [latched_other_pin _ _ _ _ _ _ _ h1 h2, latched_append,
    latched_other_pin _ _ _ _ _ _ _ h1 h2]
  simp [latched]

theorem writesTo_frame (cs : Nat) (body : List Event) :
    writesTo cs (frame cs body) = Level.LOW :: (writesTo cs body ++ [Level.HIGH]) := by
  unfold frame
  simp only [writesTo, if_true, writesTo_append]

theorem frame_head (cs : Nat) (body : List Event) :
    (frame cs body).head? = some (Event.digitalWrite cs Level.LOW) := rfl

theorem frame_getLast (cs : Nat) (body : List Event) :
    (frame cs body).getLast? = some (Event.digitalWrite cs Level.HIGH) := by
  unfold frame
  rw [← List.singleton_append, ← List.append_assoc, List.getLast?_append]
  rfl

theorem latched_writeBody (rw dat address data : Nat) (c d : Level) (h3 : dat ≠ rw) :
    latched rw dat c d (writeBody rw dat address data) =
      topBits WRITE_MODE 3 ++
        (topBits (((address % 256) <<< 3) % 256) 6 ++ topBits (data % 256) 8) := by
  unfold writeBody
  rw [latched_append, latched_append,
    latched_bitGroups _ _ h3 _ _ _ _ (by decide),
    latched_bitGroups _ _ h3 _ _ _ _ (Nat.mod_lt _ (by decide)),
    latched_bitGroups _ _ h3 _ _ _ _ (Nat.mod_lt _ (by decide))]

theorem latched_commandBody (rw dat cmd : Nat) (c d : Level) (h3 : dat ≠ rw) :
    latched rw dat c d (commandBody rw dat cmd) =
      topBits COMMAND_MODE 4 ++ topBits (cmd % 256) 8 := by
  unfold commandBody
  rw [latched_append,
    latched_bitGroups _ _ h3 _ _ _ _ (by decide),
    latched_bitGroups _ _ h3 _ _ _ _ (Nat.mod_lt _ (by decide))]

theorem writesTo_writeBody (cs rw dat address data : Nat) (h1 : cs ≠ rw) (h2 : cs ≠ dat) :
    writesTo cs (writeBody rw dat address data) = [] := by
  have e := writesTo_bitGroups_other cs rw dat (fun x => h1 x.symm) (fun x => h2 x.symm)
  unfold writeBody
  rw [writesTo_append, writesTo_append, e, e, e]
  rfl

theorem writesTo_commandBody (cs rw dat cmd : Nat) (h1 : cs ≠ rw) (h2 : cs ≠ dat) :
    writesTo cs (commandBody rw dat cmd) = [] := by
  have e := writesTo_bitGroups_other cs rw dat (fun x => h1 x.symm) (fun x => h2 x.symm)
  unfold commandBody
  rw [writesTo_append, e, e]
  rfl

theorem take_drop_fields (a b c : List Level) (n m : Nat) (ha : a.length = n)
    (hb : b.length = m) :
    (a ++ (b ++ c)).take n = a ∧ ((a ++ (b ++ c)).drop n).take m = b ∧
      (a ++ (b ++ c)).drop (n + m) = c := by
  subst ha hb
  refine ⟨by simp, by simp, ?_⟩
  rw [← List.append_assoc, ← List.length_append, List.drop_left]

/-- C2 (amended): whenever the three pins are pairwise distinct, for every
address and data in [0,255] `HT1621_write(address, data)` emits one frame:
the first event asserts chip-select, the last releases it and chip-select is
not written in between; exactly 17 bits are clocked; the first 3 are 1,0,1;
the next 6 read, first bit most significant, as the top six bits of the
byte `address << 3`, which is `(address * 2) mod 64`; the last 8 read as
`data`. -/
theorem write_frame_bits (s : State) (address data : Nat) (c d : Level)
    (hcr : s._CS_pin ≠ s._RW_pin) (hcd : s._CS_pin ≠ s._DATA_pin)
    (hdr : s._DATA_pin ≠ s._RW_pin) (ha : address ≤ 255) (hd : data ≤ 255) :
    (emitted s (HT1621_write s address data)).head? =
        some (Event.digitalWrite s._CS_pin Level.LOW) ∧
    (emitted s (HT1621_write s address data)).getLast? =
        some (Event.digitalWrite s._CS_pin Level.HIGH) ∧
    writesTo s._CS_pin (emitted s (HT1621_write s address data)) =
        [Level.LOW, Level.HIGH] ∧
    (latched s._RW_pin s._DATA_pin c d
        (emitted s (HT1621_write s address data))).length = 17 ∧
    (latched s._RW_pin s._DATA_pin c d
        (emitted s (HT1621_write s address data))).take 3 =
        [Level.HIGH, Level.LOW, Level.HIGH] ∧
    bitsToNat (((latched s._RW_pin s._DATA_pin c d
        (emitted s (HT1621_write s address data))).drop 3).take 6) =
        (address <<< 3) % 256 / 4 ∧
    (address <<< 3) % 256 / 4 = (address * 2) % 64 ∧
    bitsToNat ((latched s._RW_pin s._DATA_pin c d
        (emitted s (HT1621_write s address data))).drop 9) = data := by
  have ha' : address % 256 = address := Nat.mod_eq_of_lt (by omega)
  have hd' : data % 256 = data := Nat.mod_eq_of_lt (by omega)
  have hm : topBits WRITE_MODE 3 = [Level.HIGH, Level.LOW, Level.HIGH] := by decide
  have hl6 := topBits_length 6 ((address <<< 3) % 256)
  have hl8 := topBits_length 8 data
  have hb6 := bitsToNat_topBits ((address <<< 3) % 256) (Nat.mod_lt _ (by decide)) 6 (by decide)
  have hb8 := bitsToNat_topBits data (by omega) 8 (by decide)
  have hf := take_drop_fields [Level.HIGH, Level.LOW, Level.HIGH]
    (topBits ((address <<< 3) % 256) 6) (topBits data 8) 3 6 rfl hl6
  rw [emitted_write, writeFrame, latched_frame _ _ _ _ _ _ hcr hcd,
    latched_writeBody _ _ _ _ _ _ hdr, writesTo_frame,
    writesTo_writeBody _ _ _ _ _ hcr hcd, ha', hd', hm]
  refine ⟨frame_head _ _, frame_getLast _ _, rfl, ?_, hf.1, ?_, ?_, ?_⟩
  · simp [hl6, hl8]
  · rw [hf.2.1, hb6]; rfl
  · rw [Nat.shiftLeft_eq]; omega
  · rw [hf.2.2, hb8]; simp

/-- Witness for C2 (amended): `HT1621_write(5, 0xf5)` on the pins of
`main`. -/
theorem write_frame_bits_witness :
    (emitted wired (HT1621_write wired 5 0xf5)).head? =
        some (Event.digitalWrite wired._CS_pin Level.LOW) ∧
    (emitted wired (HT1621_write wired 5 0xf5)).getLast? =
        some (Event.digitalWrite wired._CS_pin Level.HIGH) ∧
    writesTo wired._CS_pin (emitted wired (HT1621_write wired 5 0xf5)) =
        [Level.LOW, Level.HIGH] ∧
    (latched wired._RW_pin wired._DATA_pin Level.HIGH Level.HIGH
        (emitted wired (HT1621_write wired 5 0xf5))).length = 17 ∧
    (latched wired._RW_pin wired._DATA_pin Level.HIGH Level.HIGH
        (emitted wired (HT1621_write wired 5 0xf5))).take 3 =
        [Level.HIGH, Level.LOW, Level.HIGH] ∧
    bitsToNat (((latched wired._RW_pin wired._DATA_pin Level.HIGH Level.HIGH
        (emitted wired (HT1621_write wired 5 0xf5))).drop 3).take 6) =
        (5 <<< 3) % 256 / 4 ∧
    (5 <<< 3) % 256 / 4 = (5 * 2) % 64 ∧
    bitsToNat ((latched wired._RW_pin wired._DATA_pin Level.HIGH Level.HIGH
        (emitted wired (HT1621_write wired 5 0xf5))).drop 9) = 0xf5 :=
  write_frame_bits wired 5 0xf5 Level.HIGH Level.HIGH
    (by decide) (by decide) (by decide) (by decide) (by decide)

/-- C2 fails as stated.  On the pins of `main`, `HT1621_write(1, 0)` clocks
the six address bits 0,0,0,0,1,0, which read 2 and not `(1 * 8) mod 64 = 8`.
And after `HT1621_begin(2, 1, 1)`, where data and clock share a pin, the
first three bits latched from `HT1621_write(0, 0)` are 1,1,1 and not
1,0,1. -/
theorem write_frame_counterexample :
    ((latched wired._RW_pin wired._DATA_pin Level.HIGH Level.HIGH
        (emitted wired (HT1621_write wired 1 0))).drop 3).take 6 =
      [Level.LOW, Level.LOW, Level.LOW, Level.LOW, Level.HIGH, Level.LOW] ∧
    bitsToNat (((latched wired._RW_pin wired._DATA_pin Level.HIGH Level.HIGH
        (emitted wired (HT1621_write wired 1 0))).drop 3).take 6) ≠ (1 * 8) % 64 ∧
    (latched shorted._RW_pin shorted._DATA_pin Level.HIGH Level.HIGH
        (emitted shorted (HT1621_write shorted 0 0))).take 3 =
      [Level.HIGH, Level.HIGH, Level.HIGH] := by
  rw [emitted_write, emitted_write]
  decide

/-! ## Composite operations -/

theorem init_eq (s : State) :
    HT1621_init s =
      { s with trace := s.trace ++
          (commandFrame s._CS_pin s._RW_pin s._DATA_pin RC256K ++
            (commandFrame s._CS_pin s._RW_pin s._DATA_pin BIAS_THIRD_4_COM ++
              (commandFrame s._CS_pin s._RW_pin s._DATA_pin SYS_EN ++
                commandFrame s._CS_pin s._RW_pin s._DATA_pin LCD_ON))) } := by
  simp only [HT1621_init, sendCommand_eq, List.append_assoc]

theorem clear_loop_eq (n : Nat) : ∀ (s : State) (places i : Nat),
    places % 256 - i = n →
    HT1621_clear.loop s places i =
      { s with trace := s.trace ++ clearFrames s._CS_pin s._RW_pin s._DATA_pin i n } := by
  induction n with
  | zero =>
    intro s places i h
    rw [HT1621_clear.loop, if_neg (by omega)]
    simp [clearFrames]
  | succ n ih =>
    intro s places i h
    rw [HT1621_clear.loop, if_pos (by omega)]
    have hi : (i + 1) % 256 = i + 1 := Nat.mod_eq_of_lt (by omega)
    rw [hi, ih _ _ _ (by omega), write_eq]
    simp [clearFrames]

theorem clear_eq (s : State) (places : Nat) :
    HT1621_clear s places =
      { s with trace := s.trace ++
          clearFrames s._CS_pin s._RW_pin s._DATA_pin 0 (places % 256) } :=
  clear_loop_eq (places % 256) s places 0 (by omega)

theorem clearFrames_eq_join (cs rw dat : Nat) (n : Nat) : ∀ i,
    clearFrames cs rw dat i n =
      ((List.range n).map (fun k => writeFrame cs rw dat (i + k) 0)).flatten := by
  induction n with
  | zero => intro i; rfl
  | succ n ih =>
    intro i
    rw [clearFrames, ih, List.range_succ_eq_map]
    simp [Nat.add_assoc, Nat.add_comm 1, Function.comp_def]

theorem emitted_init (s : State) :
    emitted s (HT1621_init s) =
      commandFrame s._CS_pin s._RW_pin s._DATA_pin RC256K ++
        (commandFrame s._CS_pin s._RW_pin s._DATA_pin BIAS_THIRD_4_COM ++
          (commandFrame s._CS_pin s._RW_pin s._DATA_pin SYS_EN ++
            commandFrame s._CS_pin s._RW_pin s._DATA_pin LCD_ON)) := by
  rw [init_eq]
  exact emitted_append _ _ _ rfl

theorem emitted_clear (s : State) (places : Nat) :
    emitted s (HT1621_clear s places) =
      clearFrames s._CS_pin s._RW_pin s._DATA_pin 0 (places % 256) := by
  rw [clear_eq]
  exact emitted_append _ _ _ rfl

theorem pattern_read_in_table (s : State) (num b : Nat) (h : pattern[num]? = some b) :
    pattern_read s num = b := by
  have hlt : num < 17 := by
    rcases Nat.lt_or_ge num 17 with h' | h'
    · exact h'
    · have : pattern[num]? = none := List.getElem?_eq_none (by simpa [pattern] using h')
      rw [this] at h; cases h
  have hm : num % 256 = num := Nat.mod_eq_of_lt (by omega)
  simp [pattern_read, hm, h]

/-- C5: `HT1621_init()` emits exactly four command frames and nothing else:
its trace is the trace of `HT1621_sendCommand(0x30)` (RC256K), then that of
`HT1621_sendCommand(0x52)` (BIAS_THIRD_4_COM), then that of
`HT1621_sendCommand(0x02)` (SYS_EN), then that of `HT1621_sendCommand(0x06)`
(LCD_ON). -/
theorem init_is_four_command_frames (s : State) :
    emitted s (HT1621_init s) =
      emitted s (HT1621_sendCommand s 0x30) ++
        (emitted s (HT1621_sendCommand s 0x52) ++
          (emitted s (HT1621_sendCommand s 0x02) ++
            emitted s (HT1621_sendCommand s 0x06))) := by
  rw [emitted_init]
  simp only [emitted_sendCommand, RC256K, BIAS_THIRD_4_COM, SYS_EN, LCD_ON]

/-- C6: for every n in [0,255], `HT1621_clear(n)` emits exactly n write
frames and nothing else: its trace is the concatenation, for
i = 0, 1, ..., n-1 in ascending order, of the trace of `HT1621_write(i, 0)`;
in particular `HT1621_clear(0)` emits no GPIO event at all. -/
theorem clear_is_ascending_zero_writes (s : State) (n : Nat) (hn : n ≤ 255) :
    emitted s (HT1621_clear s n) =
        ((List.range n).map (fun i => emitted s (HT1621_write s i 0))).flatten ∧
    emitted s (HT1621_clear s 0) = [] := by
  have hm : n % 256 = n := Nat.mod_eq_of_lt (by omega)
  constructor
  · rw [emitted_clear, hm, clearFrames_eq_join]
    simp only [emitted_write, Nat.zero_add]
  · rw [emitted_clear]
    rfl

/-- Witness for C6: `HT1621_clear(12)`, the call `main` makes. -/
theorem clear_is_ascending_zero_writes_witness :
    emitted wired (HT1621_clear wired 12) =
        ((List.range 12).map (fun i => emitted wired (HT1621_write wired i 0))).flatten ∧
    emitted wired (HT1621_clear wired 0) = [] :=
  clear_is_ascending_zero_writes wired 12 (by decide)

/-- C7: for every address and every value in [0,16],
`HT1621_setNum(address, value)` emits exactly the trace of
`HT1621_write(address, pattern[value])`, `pattern[value]` being an entry of
the 17-entry table; in particular `HT1621_setNum(address, 0)` emits the
trace of `HT1621_write(address, 0xf5)`. -/
theorem setNum_is_write_of_pattern (s : State) (address value : Nat) (hv : value ≤ 16) :
    pattern.length = 17 ∧
    (∃ b, pattern[value]? = some b ∧
      emitted s (HT1621_setNum s address value) = emitted s (HT1621_write s address b)) ∧
    emitted s (HT1621_setNum s address 0) = emitted s (HT1621_write s address 0xf5) := by
  refine ⟨rfl, ?_, ?_⟩
  · have hlt : value < pattern.length := by simp [pattern]; omega
    refine ⟨pattern[value], List.getElem?_eq_getElem hlt, ?_⟩
    rw [HT1621_setNum, pattern_read_in_table s value _ (List.getElem?_eq_getElem hlt)]
  · rw [HT1621_setNum, pattern_read_in_table s 0 0xf5 rfl]

/-- Witness for C7: `HT1621_setNum(11, 10)`, a call `main` makes. -/
theorem setNum_is_write_of_pattern_witness :
    pattern.length = 17 ∧
    (∃ b, pattern[10]? = some b ∧
      emitted wired (HT1621_setNum wired 11 10) = emitted wired (HT1621_write wired 11 b)) ∧
    emitted wired (HT1621_setNum wired 11 0) = emitted wired (HT1621_write wired 11 0xf5) :=
  setNum_is_write_of_pattern wired 11 10 (by decide)

/-- C8: for every address and every value in [0,16],
`HT1621_setDotNum(address, value)` emits exactly the trace of
`HT1621_write(address, pattern[value] | 0x08)`; in particular
`HT1621_setDotNum(address, 0)` emits the trace of
`HT1621_write(address, 0xfd)`. -/
theorem setDotNum_is_write_of_pattern_with_dot (s : State) (address value : Nat)
    (hv : value ≤ 16) :
    (∃ b, pattern[value]? = some b ∧
      emitted s (HT1621_setDotNum s address value) =
        emitted s (HT1621_write s address (b ||| 0x08))) ∧
    emitted s (HT1621_setDotNum s address 0) = emitted s (HT1621_write s address 0xfd) := by
  constructor
  · have hlt : value < pattern.length := by simp [pattern]; omega
    refine ⟨pattern[value], List.getElem?_eq_getElem hlt, ?_⟩
    rw [HT1621_setDotNum, pattern_read_in_table s value _ (List.getElem?_eq_getElem hlt)]
  · have e : (0xf5 ||| 0x08 : Nat) = 0xfd := by decide
    rw [HT1621_setDotNum, pattern_read_in_table s 0 0xf5 rfl, e]

/-- Witness for C8: `HT1621_setDotNum(8, 7)`, a call `main` makes. -/
theorem setDotNum_is_write_of_pattern_with_dot_witness :
    (∃ b, pattern[7]? = some b ∧
      emitted wired (HT1621_setDotNum wired 8 7) =
        emitted wired (HT1621_write wired 8 (b ||| 0x08))) ∧
    emitted wired (HT1621_setDotNum wired 8 0) = emitted wired (HT1621_write wired 8 0xfd) :=
  setDotNum_is_write_of_pattern_with_dot wired 8 7 (by decide)

/-! ## Lengths -/

theorem bitGroups_length (rw dat : Nat) (n : Nat) : ∀ data,
    (bitGroups rw dat data n).length = 6 * n := by
  induction n with
  | zero => intro data; rfl
  | succ n ih =>
    intro data
    rw [bitGroups, List.length_append, ih]
    simp [bitGroup]
    omega

theorem writeFrame_length (cs rw dat address data : Nat) :
    (writeFrame cs rw dat address data).length = 104 := by
  simp [writeFrame, frame, writeBody, bitGroups_length]

/-! ## Pattern indices outside the table -/

/-- C9 (amended): `HT1621_setNum` and `HT1621_setDotNum` have no failure
path and check no index.  For every address and every index in [17,255] the
lookup falls outside the 17-entry table, and each function still emits one
complete write frame to the address: the trace of `HT1621_write(address, b)`
for some byte `b` (with bit 0x08 set for `HT1621_setDotNum`), 104 GPIO events
that begin by asserting chip-select and end by releasing it. -/
theorem setNum_outside_table_still_writes (s : State) (address num : Nat)
    (h17 : 17 ≤ num) (h255 : num ≤ 255) :
    pattern[num]? = none ∧
    (∃ b, b ≤ 255 ∧
      emitted s (HT1621_setNum s address num) = emitted s (HT1621_write s address b) ∧
      emitted s (HT1621_setDotNum s address num) =
        emitted s (HT1621_write s address (b ||| 0x08))) ∧
    (emitted s (HT1621_setNum s address num)).length = 104 ∧
    (emitted s (HT1621_setDotNum s address num)).length = 104 ∧
    (emitted s (HT1621_setNum s address num)).head? =
      some (Event.digitalWrite s._CS_pin Level.LOW) ∧
    (emitted s (HT1621_setNum s address num)).getLast? =
      some (Event.digitalWrite s._CS_pin Level.HIGH) ∧
    (emitted s (HT1621_setDotNum s address num)).head? =
      some (Event.digitalWrite s._CS_pin Level.LOW) ∧
    (emitted s (HT1621_setDotNum s address num)).getLast? =
      some (Event.digitalWrite s._CS_pin Level.HIGH) := by
  have hm : num % 256 = num := Nat.mod_eq_of_lt (by omega)
  have hnone : pattern[num]? = none := List.getElem?_eq_none (by simpa [pattern] using h17)
  have hr : pattern_read s num = s.past_pattern num % 256 := by
    simp [pattern_read, hm, hnone]
  refine ⟨hnone, ⟨s.past_pattern num % 256, ?_, ?_, ?_⟩, ?_, ?_, ?_, ?_, ?_, ?_⟩
  · have := Nat.mod_lt (s.past_pattern num) (show 0 < 256 by decide)
    omega
  · rw [HT1621_setNum, hr]
  · rw [HT1621_setDotNum, hr]
  · rw [HT1621_setNum, emitted_write]; exact writeFrame_length _ _ _ _ _
  · rw [HT1621_setDotNum, emitted_write]; exact writeFrame_length _ _ _ _ _
  · rw [HT1621_setNum, emitted_write]; exact frame_head _ _
  · rw [HT1621_setNum, emitted_write]; exact frame_getLast _ _
  · rw [HT1621_setDotNum, emitted_write]; exact frame_head _ _
  · rw [HT1621_setDotNum, emitted_write]; exact frame_getLast _ _

/-- Witness for C9 (amended): index 17 at address 3 on the pins of
`main`. -/
theorem setNum_outside_table_still_writes_witness :
    pattern[17]? = none ∧
    (∃ b, b ≤ 255 ∧
      emitted wired (HT1621_setNum wired 3 17) = emitted wired (HT1621_write wired 3 b) ∧
      emitted wired (HT1621_setDotNum wired 3 17) =
        emitted wired (HT1621_write wired 3 (b ||| 0x08))) ∧
    (emitted wired (HT1621_setNum wired 3 17)).length = 104 ∧
    (emitted wired (HT1621_setDotNum wired 3 17)).length = 104 ∧
    (emitted wired (HT1621_setNum wired 3 17)).head? =
      some (Event.digitalWrite wired._CS_pin Level.LOW) ∧
    (emitted wired (HT1621_setNum wired 3 17)).getLast? =
      some (Event.digitalWrite wired._CS_pin Level.HIGH) ∧
    (emitted wired (HT1621_setDotNum wired 3 17)).head? =
      some (Event.digitalWrite wired._CS_pin Level.LOW) ∧
    (emitted wired (HT1621_setDotNum wired 3 17)).getLast? =
      some (Event.digitalWrite wired._CS_pin Level.HIGH) :=
  setNum_outside_table_still_writes wired 3 17 (by decide) (by decide)

/-- C9 fails as stated: with index 17 the lookup is outside the table, and
`HT1621_setNum(0, 17)` and `HT1621_setDotNum(0, 17)` each emit 104 GPIO
events, the first of which is the chip-select write, instead of none. -/
theorem setNum_index_17_counterexample :
    pattern[17]? = none ∧
    emitted wired (HT1621_setNum wired 0 17) ≠ [] ∧
    (emitted wired (HT1621_setNum wired 0 17)).length = 104 ∧
    (emitted wired (HT1621_setNum wired 0 17)).head? =
      some (Event.digitalWrite 2 Level.LOW) ∧
    emitted wired (HT1621_setDotNum wired 0 17) ≠ [] ∧
    (emitted wired (HT1621_setDotNum wired 0 17)).length = 104 ∧
    (emitted wired (HT1621_setDotNum wired 0 17)).head? =
      some (Event.digitalWrite 2 Level.LOW) := by
  have e1 : emitted wired (HT1621_setNum wired 0 17) =
      writeFrame 2 1 0 0 (pattern_read wired 17) := by
    rw [HT1621_setNum, emitted_write]; rfl
  have e2 : emitted wired (HT1621_setDotNum wired 0 17) =
      writeFrame 2 1 0 0 (pattern_read wired 17 ||| 0x08) := by
    rw [HT1621_setDotNum, emitted_write]; rfl
  rw [e1, e2]
  refine ⟨rfl, ?_, writeFrame_length _ _ _ _ _, rfl, ?_, writeFrame_length _ _ _ _ _, rfl⟩
  · intro h; cases h
  · intro h; cases h

/-! ## The six-event group of the serializer -/

theorem totalDelay_append (a b : List Event) :
    totalDelay (a ++ b) = totalDelay a + totalDelay b := by
  induction a with
  | nil => simp [totalDelay]
  | cons e es ih => cases e <;> simp [totalDelay, ih, Nat.add_assoc]

theorem totalDelay_bitGroups (rw dat : Nat) (n : Nat) : ∀ data,
    totalDelay (bitGroups rw dat data n) = 60 * n := by
  induction n with
  | zero => intro data; rfl
  | succ n ih =>
    intro data
    rw [bitGroups, totalDelay_append, ih]
    simp [bitGroup, totalDelay]
    omega

theorem bitGroup_data_write (rw dat data : Nat) (h : dat ≠ rw) (pre post : List Event)
    (l : Level) (e : bitGroup rw dat data = pre ++ Event.digitalWrite dat l :: post) :
    pre = [Event.digitalWrite rw Level.LOW, Event.delayMicroseconds 20] := by
  have h' : rw ≠ dat := fun x => h x.symm
  rcases pre with _ | ⟨e0, _ | ⟨e1, _ | ⟨e2, _ | ⟨e3, _ | ⟨e4, _ | ⟨e5, pre⟩⟩⟩⟩⟩⟩ <;>
    simp [bitGroup, h'] at e ⊢
  · exact ⟨e.1.symm, e.2.1.symm⟩

theorem bitGroups_data_write (rw dat : Nat) (h : dat ≠ rw) (n : Nat) :
    ∀ (data : Nat) (c : Level) (pre post : List Event) (l : Level),
      bitGroups rw dat data n = pre ++ Event.digitalWrite dat l :: post →
      lineLevel rw c pre = Level.LOW := by
  induction n with
  | zero =>
    intro data c pre post l e
    simp [bitGroups] at e
  | succ n ih =>
    intro data c pre post l e
    rw [bitGroups, List.append_eq_append_iff] at e
    rcases e with ⟨a', hpre, hrest⟩ | ⟨c', hgrp, hcons⟩
    · rw [hpre, lineLevel_append]
      exact ih _ _ _ _ _ hrest
    · rcases c' with _ | ⟨x, c'⟩
      · rw [List.nil_append] at hcons
        rw [List.append_nil] at hgrp
        have := ih _ (lineLevel rw c (bitGroup rw dat data)) [] post l hcons.symm
        rw [← hgrp]
        exact this
      · rw [List.cons_append, List.cons.injEq] at hcons
        rw [← hcons.1] at hgrp
        rw [bitGroup_data_write rw dat data h pre c' l hgrp]
        simp [lineLevel]

/-! ## Chip-select discipline -/

theorem alternating_append : ∀ (x y : List Level),
    alternating x = true → alternating y = true → alternating (x ++ y) = true
  | [], _, _, hy => hy
  | Level.LOW :: Level.HIGH :: ls, y, hx, hy => by
    have hx' : alternating ls = true := by simpa [alternating] using hx
    simpa [alternating] using alternating_append ls y hx' hy
  | [Level.LOW], _, hx, _ => by simp [alternating] at hx
  | Level.LOW :: Level.LOW :: _, _, hx, _ => by simp [alternating] at hx
  | Level.HIGH :: _, _, hx, _ => by simp [alternating] at hx

theorem disciplined_nil (cs rw dat : Nat) : Disciplined cs rw dat [] where
  alternate := rfl
  inside := by
    intro pre post p l h _
    simp at h
  release := by
    intro pre post h
    simp at h

theorem disciplined_append (cs rw dat : Nat) (a b : List Event)
    (ha : Disciplined cs rw dat a) (hb : Disciplined cs rw dat b) :
    Disciplined cs rw dat (a ++ b) where
  alternate := by
    rw [writesTo_append]
    exact alternating_append _ _ ha.alternate hb.alternate
  inside := by
    intro pre post p l h hp
    rw [List.append_eq_append_iff] at h
    rcases h with ⟨a', hpre, hrest⟩ | ⟨c', hgrp, hcons⟩
    · have := hb.inside a' post p l hrest hp
      rw [hpre, writesTo_append, List.getLast?_append, this.1]
      exact ⟨rfl, this.2⟩
    · rcases c' with _ | ⟨x, c'⟩
      · rw [List.nil_append] at hcons
        have := hb.inside [] post p l hcons.symm hp
        simp [writesTo] at this
      · rw [List.cons_append, List.cons.injEq] at hcons
        rw [← hcons.1] at hgrp
        have := ha.inside pre c' p l hgrp hp
        rw [hcons.2, writesTo_append, List.head?_append, this.2]
        exact ⟨this.1, rfl⟩
  release := by
    intro pre post h
    rw [List.append_eq_append_iff] at h
    rcases h with ⟨a', hpre, hrest⟩ | ⟨c', hgrp, hcons⟩
    · obtain ⟨pre', hp'⟩ := hb.release a' post hrest
      exact ⟨a ++ pre', by rw [hpre, hp', List.append_assoc]⟩
    · rcases c' with _ | ⟨x, c'⟩
      · rw [List.nil_append] at hcons
        obtain ⟨pre', hp'⟩ := hb.release [] post hcons.symm
        simp at hp'
      · rw [List.cons_append, List.cons.injEq] at hcons
        rw [← hcons.1] at hgrp
        exact ha.release pre c' hgrp

theorem disciplined_frame (cs rw dat : Nat) (body : List Event)
    (h1 : cs ≠ rw) (h2 : cs ≠ dat) (hno : writesTo cs body = [])
    (hend : ∃ b', body = b' ++
      [Event.digitalWrite rw Level.HIGH, Event.delayMicroseconds 20]) :
    Disciplined cs rw dat (frame cs body) where
  alternate := by
    rw [writesTo_frame, hno]
    rfl
  inside := by
    intro pre post p l h hp
    have hpc : p ≠ cs := by
      rcases hp with hp | hp
      · rw [hp]; exact fun x => h1 x.symm
      · rw [hp]; exact fun x => h2 x.symm
    unfold frame at h
    rcases pre with _ | ⟨e, pre1⟩
    · simp at h
      exact absurd h.1.1.symm hpc
    · rw [List.cons_append, List.cons.injEq] at h
      obtain ⟨he, h⟩ := h
      have hpre1 : writesTo cs pre1 = [] ∧ writesTo cs post = [Level.HIGH] := by
        rw [List.append_eq_append_iff] at h
        rcases h with ⟨a', _, hrest⟩ | ⟨c', hgrp, hcons⟩
        · rcases a' with _ | ⟨x, a'⟩
          · simp at hrest
            exact absurd hrest.1.1.symm hpc
          · simp at hrest
        · rw [hgrp, writesTo_append] at hno
          refine ⟨(List.append_eq_nil.mp hno).1, ?_⟩
          rcases c' with _ | ⟨x, c'⟩
          · simp at hcons
            exact absurd hcons.1.1 hpc
          · rw [List.cons_append, List.cons.injEq] at hcons
            have hc' : writesTo cs c' = [] := by
              have := (List.append_eq_nil.mp hno).2
              rw [← hcons.1] at this
              simpa [writesTo, hpc] using this
            rw [hcons.2, writesTo_append, hc']
            simp [writesTo]
      rw [← he]
      simp [writesTo, hpre1.1, hpre1.2]
  release := by
    intro pre post h
    obtain ⟨b', hb'⟩ := hend
    unfold frame at h
    rcases pre with _ | ⟨e, pre1⟩
    · simp at h
    · rw [List.cons_append, List.cons.injEq] at h
      obtain ⟨he, h⟩ := h
      have hpre1 : pre1 = body := by
        rw [List.append_eq_append_iff] at h
        rcases h with ⟨a', hp, hrest⟩ | ⟨c', hgrp, hcons⟩
        · rcases a' with _ | ⟨x, a'⟩
          · simpa using hp
          · simp at hrest
        · rcases c' with _ | ⟨x, c'⟩
          · simpa using hgrp.symm
          · rw [List.cons_append, List.cons.injEq] at hcons
            rw [hgrp, ← hcons.1, writesTo_append] at hno
            simp [writesTo] at hno
      exact ⟨e :: b', by rw [hpre1, hb']; rfl⟩

theorem bitGroups_succ_end (rw dat : Nat) (n : Nat) : ∀ data,
    ∃ b', bitGroups rw dat data (n + 1) = b' ++
      [Event.digitalWrite rw Level.HIGH, Event.delayMicroseconds 20] := by
  induction n with
  | zero =>
    intro data
    exact ⟨[Event.digitalWrite rw Level.LOW, Event.delayMicroseconds 20,
      Event.digitalWrite dat (if data &&& 0x80 ≠ 0 then Level.HIGH else Level.LOW),
      Event.delayMicroseconds 20], rfl⟩
  | succ n ih =>
    intro data
    obtain ⟨b', hb'⟩ := ih ((data <<< 1) % 256)
    refine ⟨bitGroup rw dat data ++ b', ?_⟩
    rw [bitGroups, hb', List.append_assoc]

theorem disciplined_writeFrame (cs rw dat address data : Nat)
    (h1 : cs ≠ rw) (h2 : cs ≠ dat) :
    Disciplined cs rw dat (writeFrame cs rw dat address data) := by
  refine disciplined_frame cs rw dat _ h1 h2 (writesTo_writeBody _ _ _ _ _ h1 h2) ?_
  obtain ⟨b', hb'⟩ := bitGroups_succ_end rw dat 7 (data % 256)
  refine ⟨bitGroups rw dat WRITE_MODE 3 ++
    (bitGroups rw dat (((address % 256) <<< 3) % 256) 6 ++ b'), ?_⟩
  rw [writeBody, hb']
  simp only [List.append_assoc]

theorem disciplined_commandFrame (cs rw dat cmd : Nat)
    (h1 : cs ≠ rw) (h2 : cs ≠ dat) :
    Disciplined cs rw dat (commandFrame cs rw dat cmd) := by
  refine disciplined_frame cs rw dat _ h1 h2 (writesTo_commandBody _ _ _ _ h1 h2) ?_
  obtain ⟨b', hb'⟩ := bitGroups_succ_end rw dat 7 (cmd % 256)
  refine ⟨bitGroups rw dat COMMAND_MODE 4 ++ b', ?_⟩
  rw [commandBody, hb']
  simp only [List.append_assoc]

theorem disciplined_clearFrames (cs rw dat : Nat) (h1 : cs ≠ rw) (h2 : cs ≠ dat)
    (n : Nat) : ∀ i, Disciplined cs rw dat (clearFrames cs rw dat i n) := by
  induction n with
  | zero => intro i; exact disciplined_nil cs rw dat
  | succ n ih =>
    intro i
    exact disciplined_append _ _ _ _ _ (disciplined_writeFrame _ _ _ _ _ h1 h2) (ih _)

theorem writesTo_writeFrame (cs rw dat address data : Nat) (h1 : cs ≠ rw) (h2 : cs ≠ dat) :
    writesTo cs (writeFrame cs rw dat address data) = [Level.LOW, Level.HIGH] := by
  rw [writeFrame, writesTo_frame, writesTo_writeBody _ _ _ _ _ h1 h2]
  rfl

theorem writesTo_commandFrame (cs rw dat cmd : Nat) (h1 : cs ≠ rw) (h2 : cs ≠ dat) :
    writesTo cs (commandFrame cs rw dat cmd) = [Level.LOW, Level.HIGH] := by
  rw [commandFrame, writesTo_frame, writesTo_commandBody _ _ _ _ h1 h2]
  rfl

theorem writesTo_clearFrames (cs rw dat : Nat) (h1 : cs ≠ rw) (h2 : cs ≠ dat)
    (n : Nat) : ∀ i, writesTo cs (clearFrames cs rw dat i n) =
      (List.replicate n [Level.LOW, Level.HIGH]).flatten := by
  induction n with
  | zero => intro i; rfl
  | succ n ih =>
    intro i
    rw [clearFrames, writesTo_append, writesTo_writeFrame _ _ _ _ _ h1 h2, ih,
      List.replicate_succ, List.flatten_cons]

/-- C4: whenever the three bound pins are pairwise distinct, the trace of
each of `HT1621_write`, `HT1621_sendCommand`, `HT1621_init`, `HT1621_clear`,
`HT1621_setNum` and `HT1621_setDotNum`, for any arguments, obeys the
chip-select discipline: the chip-select writes strictly alternate LOW, HIGH,
LOW, HIGH, ..., from a first LOW to a last HIGH (one LOW, HIGH pair per
frame: one frame for a write, a command or a digit, four for
`HT1621_init`, `places` for `HT1621_clear`); every write to the clock or the
data line has a chip-select LOW as the latest chip-select write before it
and a chip-select HIGH as the next one after it; and every chip-select HIGH
is the event immediately after the delay that ends a bit, so that no
chip-select write occurs inside a frame. -/
theorem chip_select_discipline (s : State)
    (hcr : s._CS_pin ≠ s._RW_pin) (hcd : s._CS_pin ≠ s._DATA_pin)
    (_hdr : s._DATA_pin ≠ s._RW_pin) :
    (∀ address data,
      Disciplined s._CS_pin s._RW_pin s._DATA_pin (emitted s (HT1621_write s address data)) ∧
      writesTo s._CS_pin (emitted s (HT1621_write s address data)) =
        [Level.LOW, Level.HIGH]) ∧
    (∀ cmd,
      Disciplined s._CS_pin s._RW_pin s._DATA_pin (emitted s (HT1621_sendCommand s cmd)) ∧
      writesTo s._CS_pin (emitted s (HT1621_sendCommand s cmd)) =
        [Level.LOW, Level.HIGH]) ∧
    (Disciplined s._CS_pin s._RW_pin s._DATA_pin (emitted s (HT1621_init s)) ∧
      writesTo s._CS_pin (emitted s (HT1621_init s)) =
        [Level.LOW, Level.HIGH, Level.LOW, Level.HIGH,
          Level.LOW, Level.HIGH, Level.LOW, Level.HIGH]) ∧
    (∀ places,
      Disciplined s._CS_pin s._RW_pin s._DATA_pin (emitted s (HT1621_clear s places)) ∧
      writesTo s._CS_pin (emitted s (HT1621_clear s places)) =
        (List.replicate (places % 256) [Level.LOW, Level.HIGH]).flatten) ∧
    (∀ adr num,
      Disciplined s._CS_pin s._RW_pin s._DATA_pin (emitted s (HT1621_setNum s adr num)) ∧
      writesTo s._CS_pin (emitted s (HT1621_setNum s adr num)) =
        [Level.LOW, Level.HIGH]) ∧
    (∀ adr num,
      Disciplined s._CS_pin s._RW_pin s._DATA_pin (emitted s (HT1621_setDotNum s adr num)) ∧
      writesTo s._CS_pin (emitted s (HT1621_setDotNum s adr num)) =
        [Level.LOW, Level.HIGH]) := by
  have hw := fun a d => disciplined_writeFrame s._CS_pin s._RW_pin s._DATA_pin a d hcr hcd
  have hc := fun c => disciplined_commandFrame s._CS_pin s._RW_pin s._DATA_pin c hcr hcd
  have ww := fun a d => writesTo_writeFrame s._CS_pin s._RW_pin s._DATA_pin a d hcr hcd
  have wc := fun c => writesTo_commandFrame s._CS_pin s._RW_pin s._DATA_pin c hcr hcd
  refine ⟨?_, ?_, ?_, ?_, ?_, ?_⟩
  · intro address data
    rw [emitted_write]
    exact ⟨hw _ _, ww _ _⟩
  · intro cmd
    rw [emitted_sendCommand]
    exact ⟨hc _, wc _⟩
  · rw [emitted_init]
    constructor
    · exact disciplined_append _ _ _ _ _ (hc _)
        (disciplined_append _ _ _ _ _ (hc _) (disciplined_append _ _ _ _ _ (hc _) (hc _)))
    · rw [writesTo_append, writesTo_append, writesTo_append, wc, wc, wc, wc]
      rfl
  · intro places
    rw [emitted_clear]
    exact ⟨disciplined_clearFrames _ _ _ hcr hcd _ _, writesTo_clearFrames _ _ _ hcr hcd _ _⟩
  · intro adr num
    rw [HT1621_setNum, emitted_write]
    exact ⟨hw _ _, ww _ _⟩
  · intro adr num
    rw [HT1621_setDotNum, emitted_write]
    exact ⟨hw _ _, ww _ _⟩

/-- Witness for C4: the discipline holds on the pins of `main` for
`HT1621_init()` and for `HT1621_clear(12)`. -/
theorem chip_select_discipline_witness :
    Disciplined 2 1 0 (emitted wired (HT1621_init wired)) ∧
    Disciplined 2 1 0 (emitted wired (HT1621_clear wired 12)) ∧
    writesTo 2 (emitted wired (HT1621_clear wired 12)) =
      (List.replicate (12 % 256) [Level.LOW, Level.HIGH]).flatten :=
  ⟨(chip_select_discipline wired (by decide) (by decide) (by decide)).2.2.1.1,
    (chip_select_discipline wired (by decide) (by decide) (by decide)).2.2.2.1 12⟩

/-! ## The segment pattern table -/

/-- C11: under the bit layout of the source header (bit 7..0 = segments
d, e, f, a, h, c, g, b) the 17 entries of the pattern table light, in order:
0 = abcdef, 1 = bc, 2 = abdeg, 3 = abcdg, 4 = bcfg, 5 = acdfg, 6 = acdefg,
7 = abc, 8 = abcdefg, 9 = abcdfg, 10 = g (dash), 11 = d (underscore),
12 = bcefg (H), 13 = adefg (E), 14 = def (L), 15 = abefg (P) and
16 = no segment (space). -/
theorem pattern_glyphs :
    pattern.map litSegments =
      [ [Segment.a, Segment.b, Segment.c, Segment.d, Segment.e, Segment.f],
        [Segment.b, Segment.c],
        [Segment.a, Segment.b, Segment.d, Segment.e, Segment.g],
        [Segment.a, Segment.b, Segment.c, Segment.d, Segment.g],
        [Segment.b, Segment.c, Segment.f, Segment.g],
        [Segment.a, Segment.c, Segment.d, Segment.f, Segment.g],
        [Segment.a, Segment.c, Segment.d, Segment.e, Segment.f, Segment.g],
        [Segment.a, Segment.b, Segment.c],
        [Segment.a, Segment.b, Segment.c, Segment.d, Segment.e, Segment.f, Segment.g],
        [Segment.a, Segment.b, Segment.c, Segment.d, Segment.f, Segment.g],
        [Segment.g],
        [Segment.d],
        [Segment.b, Segment.c, Segment.e, Segment.f, Segment.g],
        [Segment.a, Segment.d, Segment.e, Segment.f, Segment.g],
        [Segment.d, Segment.e, Segment.f],
        [Segment.a, Segment.b, Segment.e, Segment.f, Segment.g],
        [] ] := by
  decide

/-! ## Pin binding -/

theorem begin_eq (s : State) (cs rw data : Nat) :
    HT1621_begin s cs rw data =
      { s with
        _DATA_pin := data % 256
        _RW_pin := rw % 256
        _CS_pin := cs % 256
        trace := s.trace ++
          [ Event.pinMode (data % 256) PinMode.OUTPUT,
            Event.pinMode (rw % 256) PinMode.OUTPUT,
            Event.pinMode (cs % 256) PinMode.OUTPUT,
            Event.digitalWrite (cs % 256) Level.HIGH,
            Event.digitalWrite (rw % 256) Level.HIGH,
            Event.digitalWrite (data % 256) Level.HIGH ] } := by
  simp [HT1621_begin, pinMode, digitalWrite]

/-- C12: `HT1621_begin(cs, rw, data)`, its arguments being `uint8_t`
values, binds chip-select to `cs`, the clock to `rw` and the data line to
`data`; it emits exactly three pin-mode calls that make the three pins
outputs followed by three writes that drive chip-select, clock and data
HIGH, so that every pin is configured as an output before a level is written
to it; and afterwards the three lines are HIGH, whatever they were before:
the bus is idle with chip-select released. -/
theorem begin_binds_configures_idles (s : State) (cs rw data : Nat) (c : Level)
    (hcs : cs ≤ 255) (hrw : rw ≤ 255) (hdata : data ≤ 255) :
    (HT1621_begin s cs rw data)._CS_pin = cs ∧
    (HT1621_begin s cs rw data)._RW_pin = rw ∧
    (HT1621_begin s cs rw data)._DATA_pin = data ∧
    emitted s (HT1621_begin s cs rw data) =
      [ Event.pinMode data PinMode.OUTPUT,
        Event.pinMode rw PinMode.OUTPUT,
        Event.pinMode cs PinMode.OUTPUT,
        Event.digitalWrite cs Level.HIGH,
        Event.digitalWrite rw Level.HIGH,
        Event.digitalWrite data Level.HIGH ] ∧
    (∀ (pre post : List Event) (p : Nat) (l : Level),
      emitted s (HT1621_begin s cs rw data) = pre ++ Event.digitalWrite p l :: post →
      Event.pinMode p PinMode.OUTPUT ∈ pre) ∧
    lineLevel cs c (HT1621_begin s cs rw data).trace = Level.HIGH ∧
    lineLevel rw c (HT1621_begin s cs rw data).trace = Level.HIGH ∧
    lineLevel data c (HT1621_begin s cs rw data).trace = Level.HIGH := by
  have h1 : cs % 256 = cs := Nat.mod_eq_of_lt (by omega)
  have h2 : rw % 256 = rw := Nat.mod_eq_of_lt (by omega)
  have h3 : data % 256 = data := Nat.mod_eq_of_lt (by omega)
  have he : emitted s (HT1621_begin s cs rw data) =
      [ Event.pinMode data PinMode.OUTPUT,
        Event.pinMode rw PinMode.OUTPUT,
        Event.pinMode cs PinMode.OUTPUT,
        Event.digitalWrite cs Level.HIGH,
        Event.digitalWrite rw Level.HIGH,
        Event.digitalWrite data Level.HIGH ] := by
    rw [begin_eq, h1, h2, h3]
    exact emitted_append _ _ _ rfl
  rw [he, begin_eq, h1, h2, h3]
  refine ⟨rfl, rfl, rfl, rfl, ?_, ?_, ?_, ?_⟩
  · intro pre post p l e
    rcases pre with _ | ⟨e0, _ | ⟨e1, _ | ⟨e2, _ | ⟨e3, _ | ⟨e4, _ | ⟨e5, pre⟩⟩⟩⟩⟩⟩ <;>
      simp at e
    · obtain ⟨h0, h1', h2', h3', _⟩ := e
      subst h0 h1' h2'
      simp [← h3'.1]
    · obtain ⟨h0, h1', h2', _, h4', _⟩ := e
      subst h0 h1' h2'
      simp [← h4'.1]
    · obtain ⟨h0, h1', h2', _, _, h5', _⟩ := e
      subst h0 h1' h2'
      simp [← h5'.1]
  · show lineLevel cs c (s.trace ++ _) = _
    rw [lineLevel_append]
    simp only [lineLevel, if_true]
    split_ifs <;> rfl
  · show lineLevel rw c (s.trace ++ _) = _
    rw [lineLevel_append]
    simp only [lineLevel, if_true]
    split_ifs <;> rfl
  · show lineLevel data c (s.trace ++ _) = _
    rw [lineLevel_append]
    simp only [lineLevel, if_true]

/-- Witness for C12: `HT1621_begin(2, 1, 0)`, the call `main` makes. -/
theorem begin_binds_configures_idles_witness :
    (HT1621_begin startup 2 1 0)._CS_pin = 2 ∧
    (HT1621_begin startup 2 1 0)._RW_pin = 1 ∧
    (HT1621_begin startup 2 1 0)._DATA_pin = 0 ∧
    emitted startup (HT1621_begin startup 2 1 0) =
      [ Event.pinMode 0 PinMode.OUTPUT,
        Event.pinMode 1 PinMode.OUTPUT,
        Event.pinMode 2 PinMode.OUTPUT,
        Event.digitalWrite 2 Level.HIGH,
        Event.digitalWrite 1 Level.HIGH,
        Event.digitalWrite 0 Level.HIGH ] ∧
    (∀ (pre post : List Event) (p : Nat) (l : Level),
      emitted startup (HT1621_begin startup 2 1 0) = pre ++ Event.digitalWrite p l :: post →
      Event.pinMode p PinMode.OUTPUT ∈ pre) ∧
    lineLevel 2 Level.LOW (HT1621_begin startup 2 1 0).trace = Level.HIGH ∧
    lineLevel 1 Level.LOW (HT1621_begin startup 2 1 0).trace = Level.HIGH ∧
    lineLevel 0 Level.LOW (HT1621_begin startup 2 1 0).trace = Level.HIGH :=
  begin_binds_configures_idles startup 2 1 0 Level.LOW (by decide) (by decide) (by decide)

theorem onBoundPins_bitGroups (cs rw dat : Nat) (n : Nat) :
    ∀ data, ∀ e ∈ bitGroups rw dat data n, onBoundPins cs rw dat e = true := by
  induction n with
  | zero => intro data e he; simp [bitGroups] at he
  | succ n ih =>
    intro data e he
    rw [bitGroups, List.mem_append] at he
    rcases he with he | he
    · simp only [bitGroup, List.mem_cons, List.mem_singleton, List.not_mem_nil,
        or_false] at he
      rcases he with h | h | h | h | h | h <;> subst h <;> simp [onBoundPins]
    · exact ih _ e he

theorem onBoundPins_frame (cs rw dat : Nat) (body : List Event)
    (hb : ∀ e ∈ body, onBoundPins cs rw dat e = true) :
    ∀ e ∈ frame cs body, onBoundPins cs rw dat e = true := by
  intro e he
  simp only [frame, List.mem_cons, List.mem_append, List.mem_singleton,
    List.not_mem_nil, or_false] at he
  rcases he with h | h | h
  · subst h; simp [onBoundPins]
  · exact hb e h
  · subst h; simp [onBoundPins]

theorem onBoundPins_writeFrame (cs rw dat address data : Nat) :
    ∀ e ∈ writeFrame cs rw dat address data, onBoundPins cs rw dat e = true := by
  refine onBoundPins_frame cs rw dat _ ?_
  intro e he
  simp only [writeBody, List.mem_append] at he
  rcases he with h | h | h <;> exact onBoundPins_bitGroups cs rw dat _ _ e h

theorem onBoundPins_commandFrame (cs rw dat cmd : Nat) :
    ∀ e ∈ commandFrame cs rw dat cmd, onBoundPins cs rw dat e = true := by
  refine onBoundPins_frame cs rw dat _ ?_
  intro e he
  simp only [commandBody, List.mem_append] at he
  rcases he with h | h <;> exact onBoundPins_bitGroups cs rw dat _ _ e h

theorem onBoundPins_clearFrames (cs rw dat : Nat) (n : Nat) :
    ∀ i, ∀ e ∈ clearFrames cs rw dat i n, onBoundPins cs rw dat e = true := by
  induction n with
  | zero => intro i e he; simp [clearFrames] at he
  | succ n ih =>
    intro i e he
    rw [clearFrames, List.mem_append] at he
    rcases he with h | h
    · exact onBoundPins_writeFrame cs rw dat _ _ e h
    · exact ih _ e h

theorem keepsBinding_of_append (s s' : State) (es : List Event)
    (h : s' = { s with trace := s.trace ++ es })
    (hes : ∀ e ∈ es, onBoundPins s._CS_pin s._RW_pin s._DATA_pin e = true) :
    KeepsBinding s s' := by
  subst h
  refine ⟨rfl, rfl, rfl, ?_⟩
  rw [emitted_append s _ es rfl]
  exact hes

/-- C13: each of `HT1621_writeBits`, `HT1621_write`, `HT1621_sendCommand`,
`HT1621_init`, `HT1621_clear`, `HT1621_setNum` and `HT1621_setDotNum`, for
any arguments, leaves the three pin variables as it found them, and every
event it emits is a delay or a level written to one of the three bound pins:
it writes to no other pin and makes no pin-mode call. -/
theorem operations_keep_pin_binding (s : State) :
    (∀ data cnt, KeepsBinding s (HT1621_writeBits s data cnt)) ∧
    (∀ address data, KeepsBinding s (HT1621_write s address data)) ∧
    (∀ cmd, KeepsBinding s (HT1621_sendCommand s cmd)) ∧
    KeepsBinding s (HT1621_init s) ∧
    (∀ places, KeepsBinding s (HT1621_clear s places)) ∧
    (∀ adr num, KeepsBinding s (HT1621_setNum s adr num)) ∧
    (∀ adr num, KeepsBinding s (HT1621_setDotNum s adr num)) := by
  refine ⟨?_, ?_, ?_, ?_, ?_, ?_, ?_⟩
  · intro data cnt
    exact keepsBinding_of_append s _ _ (writeBits_eq s data cnt)
      (onBoundPins_bitGroups _ _ _ _ _)
  · intro address data
    exact keepsBinding_of_append s _ _ (write_eq s address data)
      (onBoundPins_writeFrame _ _ _ _ _)
  · intro cmd
    exact keepsBinding_of_append s _ _ (sendCommand_eq s cmd)
      (onBoundPins_commandFrame _ _ _ _)
  · refine keepsBinding_of_append s _ _ (init_eq s) ?_
    intro e he
    simp only [List.mem_append] at he
    rcases he with h | h | h | h <;> exact onBoundPins_commandFrame _ _ _ _ e h
  · intro places
    exact keepsBinding_of_append s _ _ (clear_eq s places)
      (onBoundPins_clearFrames _ _ _ _ _)
  · intro adr num
    exact keepsBinding_of_append s _ _ (write_eq s adr _)
      (onBoundPins_writeFrame _ _ _ _ _)
  · intro adr num
    exact keepsBinding_of_append s _ _ (write_eq s adr _)
      (onBoundPins_writeFrame _ _ _ _ _)

/-! ## Arguments outside the protocol's ranges -/

/-- C14 (amended): `HT1621_writeBits` and `HT1621_write` check nothing and
have no failure path.  With a bit count in [9,255] `HT1621_writeBits`
transmits that many six-event groups; with bit count 0 it returns without
emitting an event; and with an address in [128,255] `HT1621_write`
transmits a complete frame of 104 events, from the chip-select assert to the
chip-select release. -/
theorem out_of_range_arguments_are_transmitted (s : State)
    (value cnt address data : Nat)
    (_h9 : 9 ≤ cnt) (h255 : cnt ≤ 255) (_h128 : 128 ≤ address) (_ha : address ≤ 255) :
    emitted s (HT1621_writeBits s value cnt) =
        bitGroups s._RW_pin s._DATA_pin (value % 256) cnt ∧
    (emitted s (HT1621_writeBits s value cnt)).length = 6 * cnt ∧
    emitted s (HT1621_writeBits s value 0) = [] ∧
    emitted s (HT1621_write s address data) =
        writeFrame s._CS_pin s._RW_pin s._DATA_pin address data ∧
    (emitted s (HT1621_write s address data)).length = 104 ∧
    (emitted s (HT1621_write s address data)).head? =
        some (Event.digitalWrite s._CS_pin Level.LOW) ∧
    (emitted s (HT1621_write s address data)).getLast? =
        some (Event.digitalWrite s._CS_pin Level.HIGH) := by
  have hc : cnt % 256 = cnt := Nat.mod_eq_of_lt (by omega)
  rw [emitted_writeBits, emitted_writeBits, emitted_write, hc]
  exact ⟨rfl, bitGroups_length _ _ _ _, rfl, rfl, writeFrame_length _ _ _ _ _,
    frame_head _ _, frame_getLast _ _⟩

/-- Witness for C14 (amended): bit count 9 and address 128 on the pins of
`main`. -/
theorem out_of_range_arguments_are_transmitted_witness :
    emitted wired (HT1621_writeBits wired 0xff 9) =
        bitGroups wired._RW_pin wired._DATA_pin (0xff % 256) 9 ∧
    (emitted wired (HT1621_writeBits wired 0xff 9)).length = 6 * 9 ∧
    emitted wired (HT1621_writeBits wired 0xff 0) = [] ∧
    emitted wired (HT1621_write wired 128 0xff) =
        writeFrame wired._CS_pin wired._RW_pin wired._DATA_pin 128 0xff ∧
    (emitted wired (HT1621_write wired 128 0xff)).length = 104 ∧
    (emitted wired (HT1621_write wired 128 0xff)).head? =
        some (Event.digitalWrite wired._CS_pin Level.LOW) ∧
    (emitted wired (HT1621_write wired 128 0xff)).getLast? =
        some (Event.digitalWrite wired._CS_pin Level.HIGH) :=
  out_of_range_arguments_are_transmitted wired 0xff 9 128 0xff
    (by decide) (by decide) (by decide) (by decide)

/-- C14 fails as stated: on the pins of `main`, `HT1621_writeBits(0xff, 9)`
emits 54 events, beginning with the clock driven LOW, and
`HT1621_write(128, 0xff)` emits 104 events, beginning with the chip-select
assert; neither is rejected. -/
theorem out_of_range_arguments_counterexample :
    (emitted wired (HT1621_writeBits wired 0xff 9)).length = 54 ∧
    (emitted wired (HT1621_writeBits wired 0xff 9)).head? =
      some (Event.digitalWrite 1 Level.LOW) ∧
    (emitted wired (HT1621_write wired 128 0xff)).length = 104 ∧
    (emitted wired (HT1621_write wired 128 0xff)).head? =
      some (Event.digitalWrite 2 Level.LOW) := by
  rw [emitted_writeBits, emitted_write]
  decide

/-! ## The address field of a write frame -/

theorem sendLevels_cons (rw dat : Nat) (l : Level) (ls : List Level) :
    sendLevels rw dat (l :: ls) = bitCell rw dat l ++ sendLevels rw dat ls := by
  simp [sendLevels]

theorem sendLevels_append (rw dat : Nat) (a b : List Level) :
    sendLevels rw dat (a ++ b) = sendLevels rw dat a ++ sendLevels rw dat b := by
  simp [sendLevels]

theorem bitGroup_eq_bitCell (rw dat data : Nat) (hd : data < 256) :
    bitGroup rw dat data =
      bitCell rw dat (if 128 ≤ data % 256 then Level.HIGH else Level.LOW) := by
  have hm := msb_set_iff data hd
  rw [Nat.mod_eq_of_lt hd]
  by_cases hb : 128 ≤ data
  · have : data &&& 0x80 ≠ 0 := hm.mpr hb
    simp only [bitGroup, bitCell, if_pos this, if_pos hb]
  · have : ¬ (data &&& 0x80 ≠ 0) := fun x => hb (hm.mp x)
    simp only [bitGroup, bitCell, if_neg this, if_neg hb]

theorem bitGroups_eq_sendLevels (rw dat : Nat) (n : Nat) : ∀ data, data < 256 →
    bitGroups rw dat data n = sendLevels rw dat (topBits data n) := by
  induction n with
  | zero => intro data _; rfl
  | succ n ih =>
    intro data hd
    have hs : (data <<< 1) % 256 = 2 * data % 256 := by
      rw [Nat.shiftLeft_eq]; simp [Nat.mul_comm]
    rw [bitGroups, topBits, sendLevels_cons, bitGroup_eq_bitCell rw dat data hd,
      ih _ (Nat.mod_lt _ (by decide)), hs]

set_option maxRecDepth 100000 in
theorem address_field_levels : ∀ a < 256,
    topBits ((a <<< 3) % 256) 6 =
      [levelOfBit a 4, levelOfBit a 3, levelOfBit a 2, levelOfBit a 1, levelOfBit a 0,
        Level.LOW] ∧
    bitsToNat [levelOfBit a 4, levelOfBit a 3, levelOfBit a 2, levelOfBit a 1,
      levelOfBit a 0, Level.LOW] = (2 * a) % 64 := by
  decide

/-- C15: for every address in [0,255], the six address bits that
`HT1621_write(address, data)` clocks out after the three mode bits are bits
4, 3, 2, 1, 0 of `address` followed by a 0 bit: they are the top six bits of
the byte `address << 3`.  Read as a number, first bit most significant, the
field is `(2 * address) mod 64`, which for an address in [0,31] is
`2 * address`, the nibble address of that byte. -/
theorem write_address_field (s : State) (address data : Nat) (ha : address ≤ 255) :
    emitted s (HT1621_write s address data) =
      frame s._CS_pin
        (bitGroups s._RW_pin s._DATA_pin WRITE_MODE 3 ++
          (sendLevels s._RW_pin s._DATA_pin
              [levelOfBit address 4, levelOfBit address 3, levelOfBit address 2,
                levelOfBit address 1, levelOfBit address 0, Level.LOW] ++
            bitGroups s._RW_pin s._DATA_pin (data % 256) 8)) ∧
    sendLevels s._RW_pin s._DATA_pin
        [levelOfBit address 4, levelOfBit address 3, levelOfBit address 2,
          levelOfBit address 1, levelOfBit address 0, Level.LOW] =
      bitGroups s._RW_pin s._DATA_pin ((address <<< 3) % 256) 6 ∧
    bitsToNat [levelOfBit address 4, levelOfBit address 3, levelOfBit address 2,
        levelOfBit address 1, levelOfBit address 0, Level.LOW] = (2 * address) % 64 ∧
    (address ≤ 31 →
      bitsToNat [levelOfBit address 4, levelOfBit address 3, levelOfBit address 2,
        levelOfBit address 1, levelOfBit address 0, Level.LOW] = 2 * address) := by
  have ha' : address % 256 = address := Nat.mod_eq_of_lt (by omega)
  obtain ⟨hl, hn⟩ := address_field_levels address (by omega)
  have hg : bitGroups s._RW_pin s._DATA_pin ((address <<< 3) % 256) 6 =
      sendLevels s._RW_pin s._DATA_pin
        [levelOfBit address 4, levelOfBit address 3, levelOfBit address 2,
          levelOfBit address 1, levelOfBit address 0, Level.LOW] := by
    rw [bitGroups_eq_sendLevels _ _ _ _ (Nat.mod_lt _ (by decide)), hl]
  refine ⟨?_, hg.symm, hn, ?_⟩
  · rw [emitted_write, writeFrame, writeBody, ha', hg]
  · intro h31
    rw [hn]
    omega

/-- Witness for C15: `HT1621_write(5, 0xf5)` on the pins of `main`. -/
theorem write_address_field_witness :
    emitted wired (HT1621_write wired 5 0xf5) =
      frame wired._CS_pin
        (bitGroups wired._RW_pin wired._DATA_pin WRITE_MODE 3 ++
          (sendLevels wired._RW_pin wired._DATA_pin
              [levelOfBit 5 4, levelOfBit 5 3, levelOfBit 5 2,
                levelOfBit 5 1, levelOfBit 5 0, Level.LOW] ++
            bitGroups wired._RW_pin wired._DATA_pin (0xf5 % 256) 8)) ∧
    sendLevels wired._RW_pin wired._DATA_pin
        [levelOfBit 5 4, levelOfBit 5 3, levelOfBit 5 2,
          levelOfBit 5 1, levelOfBit 5 0, Level.LOW] =
      bitGroups wired._RW_pin wired._DATA_pin ((5 <<< 3) % 256) 6 ∧
    bitsToNat [levelOfBit 5 4, levelOfBit 5 3, levelOfBit 5 2,
        levelOfBit 5 1, levelOfBit 5 0, Level.LOW] = (2 * 5) % 64 ∧
    (5 ≤ 31 →
      bitsToNat [levelOfBit 5 4, levelOfBit 5 3, levelOfBit 5 2,
        levelOfBit 5 1, levelOfBit 5 0, Level.LOW] = 2 * 5) :=
  write_address_field wired 5 0xf5 (by decide)

/-! ## Addresses alias modulo 32 -/

theorem writeFrame_mod_32 (cs rw dat address data : Nat) :
    writeFrame cs rw dat address data = writeFrame cs rw dat (address % 32) data := by
  have e : ((address % 256) <<< 3) % 256 = (((address % 32) % 256) <<< 3) % 256 := by
    rw [Nat.shiftLeft_eq, Nat.shiftLeft_eq]
    omega
  rw [writeFrame, writeFrame, writeBody, writeBody, e]

theorem clearFrames_mod_32 (cs rw dat : Nat) (n : Nat) : ∀ i,
    clearFrames cs rw dat i n =
      ((List.range n).map (fun k => writeFrame cs rw dat ((i + k) % 32) 0)).flatten := by
  intro i
  rw [clearFrames_eq_join]
  congr 1
  apply List.map_congr_left
  intro k _
  exact writeFrame_mod_32 _ _ _ _ _

/-- C16: for every address in [0,255] and every data byte,
`HT1621_write(address, data)` emits exactly the trace of
`HT1621_write(address mod 32, data)`; for instance `HT1621_write(32, data)`
emits the trace of `HT1621_write(0, data)`.  Hence for n in [33,255] the
trace of `HT1621_clear(n)` is the concatenation, for i = 0, ..., n-1, of the
trace of `HT1621_write(i mod 32, 0)`: from i = 32 on it repeats frames it has
already sent. -/
theorem write_address_aliases_mod_32 (s : State) (address data n : Nat)
    (_ha : address ≤ 255) (h32 : 32 < n) (hn : n ≤ 255) :
    emitted s (HT1621_write s address data) =
        emitted s (HT1621_write s (address % 32) data) ∧
    emitted s (HT1621_write s 32 data) = emitted s (HT1621_write s 0 data) ∧
    emitted s (HT1621_clear s n) =
        ((List.range n).map (fun i => emitted s (HT1621_write s (i % 32) 0))).flatten ∧
    (∀ i, 32 ≤ i → i < n → i % 32 < i ∧
      emitted s (HT1621_write s i 0) = emitted s (HT1621_write s (i % 32) 0)) := by
  have hm : n % 256 = n := Nat.mod_eq_of_lt (by omega)
  refine ⟨?_, ?_, ?_, ?_⟩
  · rw [emitted_write, emitted_write]
    exact writeFrame_mod_32 _ _ _ _ _
  · rw [emitted_write, emitted_write]
    exact writeFrame_mod_32 _ _ _ 32 _
  · rw [emitted_clear, hm, clearFrames_mod_32]
    simp only [emitted_write, Nat.zero_add]
  · intro i hi _
    refine ⟨by omega, ?_⟩
    rw [emitted_write, emitted_write]
    exact writeFrame_mod_32 _ _ _ _ _

/-- Witness for C16: address 37 and `HT1621_clear(40)` on the pins of
`main`. -/
theorem write_address_aliases_mod_32_witness :
    emitted wired (HT1621_write wired 37 0xff) =
        emitted wired (HT1621_write wired (37 % 32) 0xff) ∧
    emitted wired (HT1621_write wired 32 0xff) = emitted wired (HT1621_write wired 0 0xff) ∧
    emitted wired (HT1621_clear wired 40) =
        ((List.range 40).map
          (fun i => emitted wired (HT1621_write wired (i % 32) 0))).flatten ∧
    (∀ i, 32 ≤ i → i < 40 → i % 32 < i ∧
      emitted wired (HT1621_write wired i 0) =
        emitted wired (HT1621_write wired (i % 32) 0)) :=
  write_address_aliases_mod_32 wired 37 0xff 40 (by decide) (by decide) (by decide)

/-! ## Decoding a write frame -/

theorem sendLevels_injective (rw dat : Nat) : ∀ (a b : List Level),
    sendLevels rw dat a = sendLevels rw dat b → a = b
  | [], [], _ => rfl
  | [], _ :: _, h => by simp [sendLevels, bitCell] at h
  | _ :: _, [], h => by simp [sendLevels, bitCell] at h
  | x :: a, y :: b, h => by
    rw [sendLevels_cons, sendLevels_cons] at h
    simp only [bitCell, List.cons_append, List.nil_append, List.cons.injEq,
      Event.digitalWrite.injEq, true_and] at h
    rw [h.1, sendLevels_injective rw dat a b h.2]

theorem writeBody_eq_sendLevels (rw dat address data : Nat) :
    writeBody rw dat address data =
      sendLevels rw dat (topBits WRITE_MODE 3 ++
        (topBits (((address % 256) <<< 3) % 256) 6 ++ topBits (data % 256) 8)) := by
  rw [writeBody, sendLevels_append, sendLevels_append,
    bitGroups_eq_sendLevels _ _ _ _ (by decide),
    bitGroups_eq_sendLevels _ _ _ _ (Nat.mod_lt _ (by decide)),
    bitGroups_eq_sendLevels _ _ _ _ (Nat.mod_lt _ (by decide))]

theorem writeFrame_injective (cs rw dat a a' d d' : Nat)
    (ha : a ≤ 31) (ha' : a' ≤ 31) (hd : d ≤ 255) (hd' : d' ≤ 255)
    (h : writeFrame cs rw dat a d = writeFrame cs rw dat a' d') : a = a' ∧ d = d' := by
  have e1 : a % 256 = a := Nat.mod_eq_of_lt (by omega)
  have e2 : a' % 256 = a' := Nat.mod_eq_of_lt (by omega)
  have e3 : d % 256 = d := Nat.mod_eq_of_lt (by omega)
  have e4 : d' % 256 = d' := Nat.mod_eq_of_lt (by omega)
  simp only [writeFrame, frame, List.cons.injEq, true_and] at h
  have hb := List.append_cancel_right h
  rw [writeBody_eq_sendLevels, writeBody_eq_sendLevels, e1, e2, e3, e4] at hb
  have hl := List.append_cancel_left (sendLevels_injective _ _ _ _ hb)
  obtain ⟨h6, h8⟩ := List.append_inj hl (by rw [topBits_length, topBits_length])
  have n6 := congrArg bitsToNat h6
  have n8 := congrArg bitsToNat h8
  rw [bitsToNat_topBits _ (Nat.mod_lt _ (by decide)) 6 (by decide),
    bitsToNat_topBits _ (Nat.mod_lt _ (by decide)) 6 (by decide),
    Nat.shiftLeft_eq, Nat.shiftLeft_eq] at n6
  rw [bitsToNat_topBits d (by omega) 8 (by decide),
    bitsToNat_topBits d' (by omega) 8 (by decide)] at n8
  constructor
  · simp at n6
    omega
  · simpa using n8

theorem latched_write (s : State) (address data : Nat) (c d : Level)
    (hcr : s._CS_pin ≠ s._RW_pin) (hcd : s._CS_pin ≠ s._DATA_pin)
    (hdr : s._DATA_pin ≠ s._RW_pin) :
    latched s._RW_pin s._DATA_pin c d (emitted s (HT1621_write s address data)) =
      topBits WRITE_MODE 3 ++
        (topBits (((address % 256) <<< 3) % 256) 6 ++ topBits (data % 256) 8) := by
  rw [emitted_write, writeFrame, latched_frame _ _ _ _ _ _ hcr hcd,
    latched_writeBody _ _ _ _ _ _ hdr]

/-! ## The idle bus -/

theorem lineLevel_frame_cs (cs : Nat) (body : List Event) (c : Level) :
    lineLevel cs c (frame cs body) = Level.HIGH := by
  unfold frame
  rw [← List.singleton_append, lineLevel_append, lineLevel_append]
  simp [lineLevel]

theorem lineLevel_frame_clock (cs rw : Nat) (body : List Event) (c : Level)
    (hend : ∃ b', body = b' ++
      [Event.digitalWrite rw Level.HIGH, Event.delayMicroseconds 20]) :
    lineLevel rw c (frame cs body) = Level.HIGH := by
  obtain ⟨b', hb'⟩ := hend
  unfold frame
  rw [hb', ← List.singleton_append, lineLevel_append, lineLevel_append, lineLevel_append]
  simp only [lineLevel, if_true]
  split_ifs <;> rfl

theorem writeBody_end (rw dat address data : Nat) :
    ∃ b', writeBody rw dat address data = b' ++
      [Event.digitalWrite rw Level.HIGH, Event.delayMicroseconds 20] := by
  obtain ⟨b', hb'⟩ := bitGroups_succ_end rw dat 7 (data % 256)
  refine ⟨bitGroups rw dat WRITE_MODE 3 ++
    (bitGroups rw dat (((address % 256) <<< 3) % 256) 6 ++ b'), ?_⟩
  rw [writeBody, hb']
  simp only [List.append_assoc]

theorem commandBody_end (rw dat cmd : Nat) :
    ∃ b', commandBody rw dat cmd = b' ++
      [Event.digitalWrite rw Level.HIGH, Event.delayMicroseconds 20] := by
  obtain ⟨b', hb'⟩ := bitGroups_succ_end rw dat 7 (cmd % 256)
  refine ⟨bitGroups rw dat COMMAND_MODE 4 ++ b', ?_⟩
  rw [commandBody, hb']
  simp only [List.append_assoc]

theorem writeFrame_idle (cs rw dat address data : Nat) (c : Level) :
    lineLevel cs c (writeFrame cs rw dat address data) = Level.HIGH ∧
    lineLevel rw c (writeFrame cs rw dat address data) = Level.HIGH :=
  ⟨lineLevel_frame_cs _ _ _, lineLevel_frame_clock _ _ _ _ (writeBody_end _ _ _ _)⟩

theorem commandFrame_idle (cs rw dat cmd : Nat) (c : Level) :
    lineLevel cs c (commandFrame cs rw dat cmd) = Level.HIGH ∧
    lineLevel rw c (commandFrame cs rw dat cmd) = Level.HIGH :=
  ⟨lineLevel_frame_cs _ _ _, lineLevel_frame_clock _ _ _ _ (commandBody_end _ _ _)⟩

theorem clearFrames_idle (cs rw dat : Nat) (n : Nat) : ∀ i,
    lineLevel cs Level.HIGH (clearFrames cs rw dat i n) = Level.HIGH ∧
    lineLevel rw Level.HIGH (clearFrames cs rw dat i n) = Level.HIGH := by
  induction n with
  | zero => intro i; exact ⟨rfl, rfl⟩
  | succ n ih =>
    intro i
    rw [clearFrames, lineLevel_append, lineLevel_append,
      (writeFrame_idle cs rw dat i 0 Level.HIGH).1,
      (writeFrame_idle cs rw dat i 0 Level.HIGH).2]
    exact ih _

theorem idle_of_append (c : Level) (s s' : State) (es : List Event)
    (h : s' = { s with trace := s.trace ++ es })
    (hcs : lineLevel s._CS_pin Level.HIGH es = Level.HIGH)
    (hrw : lineLevel s._RW_pin Level.HIGH es = Level.HIGH)
    (hs : Idle c s) : Idle c s' := by
  subst h
  unfold Idle at hs ⊢
  simp only [lineLevel_append, hs.1, hs.2]
  exact ⟨hcs, hrw⟩

theorem call_keeps_idle (c : Level) (s : State) (call : Call) (hs : Idle c s) :
    Idle c (call.run s) := by
  cases call with
  | write address data =>
    exact idle_of_append c s _ _ (write_eq s address data)
      (writeFrame_idle _ _ _ _ _ _).1 (writeFrame_idle _ _ _ _ _ _).2 hs
  | sendCommand cmd =>
    exact idle_of_append c s _ _ (sendCommand_eq s cmd)
      (commandFrame_idle _ _ _ _ _).1 (commandFrame_idle _ _ _ _ _).2 hs
  | init =>
    refine idle_of_append c s _ _ (init_eq s) ?_ ?_ hs
    · simp only [lineLevel_append]
      exact (commandFrame_idle _ _ _ _ _).1
    · simp only [lineLevel_append]
      exact (commandFrame_idle _ _ _ _ _).2
  | clear places =>
    exact idle_of_append c s _ _ (clear_eq s places)
      (clearFrames_idle _ _ _ _ _).1 (clearFrames_idle _ _ _ _ _).2 hs
  | setNum adr num =>
    exact idle_of_append c s _ _ (write_eq s adr _)
      (writeFrame_idle _ _ _ _ _ _).1 (writeFrame_idle _ _ _ _ _ _).2 hs
  | setDotNum adr num =>
    exact idle_of_append c s _ _ (write_eq s adr _)
      (writeFrame_idle _ _ _ _ _ _).1 (writeFrame_idle _ _ _ _ _ _).2 hs

theorem runCalls_keeps_idle (c : Level) (calls : List Call) : ∀ (s : State),
    Idle c s → Idle c (runCalls s calls) := by
  induction calls with
  | nil => intro s hs; exact hs
  | cons call calls ih =>
    intro s hs
    exact ih _ (call_keeps_idle c s call hs)

theorem begin_idle (c : Level) (s : State) (cs rw data : Nat) :
    Idle c (HT1621_begin s cs rw data) := by
  rw [begin_eq]
  unfold Idle
  simp only [lineLevel_append, lineLevel, if_true]
  constructor <;> split_ifs <;> rfl

theorem call_keeps_pins (s : State) (call : Call) :
    (call.run s)._CS_pin = s._CS_pin ∧ (call.run s)._RW_pin = s._RW_pin := by
  cases call with
  | write address data => simp only [Call.run, write_eq, and_self]
  | sendCommand cmd => simp only [Call.run, sendCommand_eq, and_self]
  | init => simp only [Call.run, init_eq, and_self]
  | clear places => simp only [Call.run, clear_eq, and_self]
  | setNum adr num => simp only [Call.run, HT1621_setNum, write_eq, and_self]
  | setDotNum adr num => simp only [Call.run, HT1621_setDotNum, write_eq, and_self]

theorem runCalls_keeps_pins (calls : List Call) : ∀ (s : State),
    (runCalls s calls)._CS_pin = s._CS_pin ∧ (runCalls s calls)._RW_pin = s._RW_pin := by
  induction calls with
  | nil => intro s; exact ⟨rfl, rfl⟩
  | cons call calls ih =>
    intro s
    have h1 := ih (call.run s)
    have h2 := call_keeps_pins s call
    exact ⟨h1.1.trans h2.1, h1.2.trans h2.2⟩

/-- C18: start from the state `HT1621_begin(cs, rw, data)` leaves, the
three pins being pairwise distinct.  After any finite sequence of calls to
`HT1621_write`, `HT1621_sendCommand`, `HT1621_init`, `HT1621_clear`,
`HT1621_setNum` and `HT1621_setDotNum` (pattern index at most 16), with any
other arguments, and after every initial part of that sequence, that is when
each call returns, the chip-select line is HIGH and the clock line is
HIGH. -/
theorem idle_bus_invariant (s0 : State) (cs rw data : Nat) (c : Level)
    (calls : List Call) (k : Nat)
    (_hcr : cs ≠ rw) (_hcd : cs ≠ data) (_hdr : data ≠ rw)
    (hcs : cs ≤ 255) (hrw : rw ≤ 255) (_hdata : data ≤ 255)
    (_hidx : ∀ call ∈ calls, call.indexInTable = true) :
    lineLevel cs c (runCalls (HT1621_begin s0 cs rw data) (calls.take k)).trace =
      Level.HIGH ∧
    lineLevel rw c (runCalls (HT1621_begin s0 cs rw data) (calls.take k)).trace =
      Level.HIGH ∧
    (runCalls (HT1621_begin s0 cs rw data) (calls.take k))._CS_pin = cs ∧
    (runCalls (HT1621_begin s0 cs rw data) (calls.take k))._RW_pin = rw := by
  have h1 : cs % 256 = cs := Nat.mod_eq_of_lt (by omega)
  have h2 : rw % 256 = rw := Nat.mod_eq_of_lt (by omega)
  have hp := runCalls_keeps_pins (calls.take k) (HT1621_begin s0 cs rw data)
  have hb : (HT1621_begin s0 cs rw data)._CS_pin = cs ∧
      (HT1621_begin s0 cs rw data)._RW_pin = rw := by
    rw [begin_eq]
    exact ⟨h1, h2⟩
  have hI := runCalls_keeps_idle c (calls.take k) _ (begin_idle c s0 cs rw data)
  unfold Idle at hI
  rw [hp.1, hp.2, hb.1, hb.2] at hI
  exact ⟨hI.1, hI.2, hp.1.trans hb.1, hp.2.trans hb.2⟩

/-- Witness for C18: the calls `main` begins with, `HT1621_init()`,
`HT1621_clear(12)`, `HT1621_write(0, 0xff)`, followed by
`HT1621_setNum(1, 0)` and `HT1621_setDotNum(8, 7)`, on the pins of `main`;
the lines are HIGH after the first three calls. -/
theorem idle_bus_invariant_witness :
    lineLevel 2 Level.LOW (runCalls (HT1621_begin startup 2 1 0)
      ([Call.init, Call.clear 12, Call.write 0 0xff, Call.setNum 1 0,
        Call.setDotNum 8 7].take 3)).trace = Level.HIGH ∧
    lineLevel 1 Level.LOW (runCalls (HT1621_begin startup 2 1 0)
      ([Call.init, Call.clear 12, Call.write 0 0xff, Call.setNum 1 0,
        Call.setDotNum 8 7].take 3)).trace = Level.HIGH ∧
    (runCalls (HT1621_begin startup 2 1 0)
      ([Call.init, Call.clear 12, Call.write 0 0xff, Call.setNum 1 0,
        Call.setDotNum 8 7].take 3))._CS_pin = 2 ∧
    (runCalls (HT1621_begin startup 2 1 0)
      ([Call.init, Call.clear 12, Call.write 0 0xff, Call.setNum 1 0,
        Call.setDotNum 8 7].take 3))._RW_pin = 1 :=
  idle_bus_invariant startup 2 1 0 Level.LOW
    [Call.init, Call.clear 12, Call.write 0 0xff, Call.setNum 1 0, Call.setDotNum 8 7] 3
    (by decide) (by decide) (by decide) (by decide) (by decide) (by decide) (by decide)

/-! ## The decimal-point bit -/

theorem pattern_entries : ∀ i < 17,
    pattern[i]? = some (pattern.getD i 0) ∧ pattern.getD i 0 &&& 0x08 = 0 ∧
      pattern.getD i 0 < 248 := by
  decide

set_option maxRecDepth 100000 in
theorem dot_bit_levels : ∀ b < 248, b &&& 0x08 = 0 →
    b ||| 0x08 = b + 8 ∧
    topBits b 8 = (topBits b 8).take 4 ++ Level.LOW :: (topBits b 8).drop 5 ∧
    topBits (b + 8) 8 = (topBits b 8).take 4 ++ Level.HIGH :: (topBits b 8).drop 5 := by
  decide

theorem emitted_write_levels (s : State) (address data : Nat) (hd : data < 256)
    (ls : List Level) (h : topBits data 8 = ls) :
    emitted s (HT1621_write s address data) =
      frame s._CS_pin
        (bitGroups s._RW_pin s._DATA_pin WRITE_MODE 3 ++
          (bitGroups s._RW_pin s._DATA_pin (((address % 256) <<< 3) % 256) 6 ++
            sendLevels s._RW_pin s._DATA_pin ls)) := by
  rw [emitted_write, writeFrame, writeBody, Nat.mod_eq_of_lt hd,
    bitGroups_eq_sendLevels _ _ 8 data hd, h]

theorem frame_split_at_level (cs rw dat : Nat) (front : List Event)
    (hs ts : List Level) (l : Level) :
    frame cs (front ++ sendLevels rw dat (hs ++ l :: ts)) =
      (Event.digitalWrite cs Level.LOW ::
        (front ++ (sendLevels rw dat hs ++
          [Event.digitalWrite rw Level.LOW, Event.delayMicroseconds 20]))) ++
      Event.digitalWrite dat l ::
        ([Event.delayMicroseconds 20, Event.digitalWrite rw Level.HIGH,
            Event.delayMicroseconds 20] ++
          (sendLevels rw dat ts ++ [Event.digitalWrite cs Level.HIGH])) := by
  simp [frame, sendLevels_append, sendLevels_cons, bitCell]

theorem sendLevels_length (rw dat : Nat) (ls : List Level) :
    (sendLevels rw dat ls).length = 6 * ls.length := by
  induction ls with
  | nil => rfl
  | cons l ls ih =>
    rw [sendLevels_cons, List.length_append, ih]
    simp [bitCell]
    omega

theorem frames_differ_in_one_level (cs rw dat : Nat) (front : List Event)
    (hs ts : List Level) (hfront : front.length = 54) (hhs : hs.length = 4)
    (hts : ts.length = 3) :
    ∃ pre post, pre.length = 81 ∧ post.length = 22 ∧
      frame cs (front ++ sendLevels rw dat (hs ++ Level.LOW :: ts)) =
        pre ++ Event.digitalWrite dat Level.LOW :: post ∧
      frame cs (front ++ sendLevels rw dat (hs ++ Level.HIGH :: ts)) =
        pre ++ Event.digitalWrite dat Level.HIGH :: post := by
  refine ⟨Event.digitalWrite cs Level.LOW ::
      (front ++ (sendLevels rw dat hs ++
        [Event.digitalWrite rw Level.LOW, Event.delayMicroseconds 20])),
    [Event.delayMicroseconds 20, Event.digitalWrite rw Level.HIGH,
        Event.delayMicroseconds 20] ++
      (sendLevels rw dat ts ++ [Event.digitalWrite cs Level.HIGH]),
    ?_, ?_, frame_split_at_level _ _ _ _ _ _ _, frame_split_at_level _ _ _ _ _ _ _⟩
  · simp [hfront, sendLevels_length, hhs]
  · simp [sendLevels_length, hts]

/-- C19: for every index i in [0,16] the table entry `pattern[i]` has bit
0x08, the decimal point, clear.  So the byte `HT1621_setDotNum(a, i)` sends
is `pattern[i] + 8`, while `HT1621_setNum(a, i)` sends `pattern[i]`; the
eight data levels of the two frames are the same except the fifth, which is
LOW for `HT1621_setNum` and HIGH for `HT1621_setDotNum`; and the two traces
are equal event for event except for that one write to the data pin. -/
theorem setNum_setDotNum_differ_in_dot_bit (s : State) (a i : Nat) (hi : i ≤ 16) :
    ∃ b, pattern[i]? = some b ∧ b &&& 0x08 = 0 ∧ b ||| 0x08 = b + 8 ∧
      emitted s (HT1621_setNum s a i) = emitted s (HT1621_write s a b) ∧
      emitted s (HT1621_setDotNum s a i) = emitted s (HT1621_write s a (b + 8)) ∧
      emitted s (HT1621_setNum s a i) =
        frame s._CS_pin
          (bitGroups s._RW_pin s._DATA_pin WRITE_MODE 3 ++
            (bitGroups s._RW_pin s._DATA_pin (((a % 256) <<< 3) % 256) 6 ++
              sendLevels s._RW_pin s._DATA_pin
                ((topBits b 8).take 4 ++ Level.LOW :: (topBits b 8).drop 5))) ∧
      emitted s (HT1621_setDotNum s a i) =
        frame s._CS_pin
          (bitGroups s._RW_pin s._DATA_pin WRITE_MODE 3 ++
            (bitGroups s._RW_pin s._DATA_pin (((a % 256) <<< 3) % 256) 6 ++
              sendLevels s._RW_pin s._DATA_pin
                ((topBits b 8).take 4 ++ Level.HIGH :: (topBits b 8).drop 5))) ∧
      ∃ pre post, pre.length = 81 ∧ post.length = 22 ∧
        emitted s (HT1621_setNum s a i) =
          pre ++ Event.digitalWrite s._DATA_pin Level.LOW :: post ∧
        emitted s (HT1621_setDotNum s a i) =
          pre ++ Event.digitalWrite s._DATA_pin Level.HIGH :: post := by
  obtain ⟨hb, hclear, hlt⟩ := pattern_entries i (by omega)
  obtain ⟨hor, hlow, hhigh⟩ := dot_bit_levels _ hlt hclear
  have hnum : emitted s (HT1621_setNum s a i) =
      emitted s (HT1621_write s a (pattern.getD i 0)) := by
    rw [HT1621_setNum, pattern_read_in_table s i _ hb]
  have hdot : emitted s (HT1621_setDotNum s a i) =
      emitted s (HT1621_write s a (pattern.getD i 0 + 8)) := by
    rw [HT1621_setDotNum, pattern_read_in_table s i _ hb, hor]
  have lnum := emitted_write_levels s a (pattern.getD i 0) (by omega) _ hlow
  have ldot := emitted_write_levels s a (pattern.getD i 0 + 8) (by omega) _ hhigh
  have h8 := topBits_length 8 (pattern.getD i 0)
  obtain ⟨pre, post, hpre, hpost, e1, e2⟩ := frames_differ_in_one_level s._CS_pin s._RW_pin
    s._DATA_pin
    (bitGroups s._RW_pin s._DATA_pin WRITE_MODE 3 ++
      bitGroups s._RW_pin s._DATA_pin (((a % 256) <<< 3) % 256) 6)
    ((topBits (pattern.getD i 0) 8).take 4) ((topBits (pattern.getD i 0) 8).drop 5)
    (by rw [List.length_append, bitGroups_length, bitGroups_length])
    (by rw [List.length_take, h8]; rfl) (by rw [List.length_drop, h8])
  rw [List.append_assoc] at e1 e2
  exact ⟨pattern.getD i 0, hb, hclear, hor, hnum, hdot, hnum.trans lnum, hdot.trans ldot,
    pre, post, hpre, hpost, (hnum.trans lnum).trans e1, (hdot.trans ldot).trans e2⟩

/-- Witness for C19: `HT1621_setNum(8, 7)` and `HT1621_setDotNum(8, 7)` on
the pins of `main`. -/
theorem setNum_setDotNum_differ_in_dot_bit_witness :
    ∃ b, pattern[7]? = some b ∧ b &&& 0x08 = 0 ∧ b ||| 0x08 = b + 8 ∧
      emitted wired (HT1621_setNum wired 8 7) = emitted wired (HT1621_write wired 8 b) ∧
      emitted wired (HT1621_setDotNum wired 8 7) =
        emitted wired (HT1621_write wired 8 (b + 8)) ∧
      emitted wired (HT1621_setNum wired 8 7) =
        frame wired._CS_pin
          (bitGroups wired._RW_pin wired._DATA_pin WRITE_MODE 3 ++
            (bitGroups wired._RW_pin wired._DATA_pin (((8 % 256) <<< 3) % 256) 6 ++
              sendLevels wired._RW_pin wired._DATA_pin
                ((topBits b 8).take 4 ++ Level.LOW :: (topBits b 8).drop 5))) ∧
      emitted wired (HT1621_setDotNum wired 8 7) =
        frame wired._CS_pin
          (bitGroups wired._RW_pin wired._DATA_pin WRITE_MODE 3 ++
            (bitGroups wired._RW_pin wired._DATA_pin (((8 % 256) <<< 3) % 256) 6 ++
              sendLevels wired._RW_pin wired._DATA_pin
                ((topBits b 8).take 4 ++ Level.HIGH :: (topBits b 8).drop 5))) ∧
      ∃ pre post, pre.length = 81 ∧ post.length = 22 ∧
        emitted wired (HT1621_setNum wired 8 7) =
          pre ++ Event.digitalWrite wired._DATA_pin Level.LOW :: post ∧
        emitted wired (HT1621_setDotNum wired 8 7) =
          pre ++ Event.digitalWrite wired._DATA_pin Level.HIGH :: post :=
  setNum_setDotNum_differ_in_dot_bit wired 8 7 (by decide)

/-! ## Termination of the serializer loop -/

theorem writeBits_control_eq (n : Nat) : ∀ (cnt i : Nat), cnt % 256 - i = n →
    i ≤ cnt % 256 → HT1621_writeBits.control cnt i = (n, cnt % 256) := by
  induction n with
  | zero =>
    intro cnt i h hle
    rw [HT1621_writeBits.control, if_neg (by omega)]
    have : i = cnt % 256 := by omega
    rw [this]
  | succ n ih =>
    intro cnt i h hle
    rw [HT1621_writeBits.control, if_pos (by omega)]
    have hi : (i + 1) % 256 = i + 1 := Nat.mod_eq_of_lt (by omega)
    rw [hi, ih cnt (i + 1) (by omega) (by omega)]

theorem bitGroups_add (rw dat : Nat) (m k : Nat) : ∀ data,
    bitGroups rw dat data (m + k) =
      bitGroups rw dat data m ++
        bitGroups rw dat ((fun x => (x <<< 1) % 256)^[m] data) k := by
  induction m with
  | zero => intro data; simp [bitGroups]
  | succ m ih =>
    intro data
    rw [Nat.add_right_comm, bitGroups, ih, bitGroups, List.append_assoc,
      Function.iterate_succ_apply]

set_option maxRecDepth 100000 in
theorem shifted_out_after_eight : ∀ v < 256, (fun x => (x <<< 1) % 256)^[8] v = 0 := by
  decide

theorem bitGroups_zero (rw dat : Nat) (k : Nat) :
    bitGroups rw dat 0 k = sendLevels rw dat (List.replicate k Level.LOW) := by
  induction k with
  | zero => rfl
  | succ k ih =>
    rw [bitGroups, List.replicate_succ, sendLevels_cons, ← ih]
    rfl

/-- C20: for every value and every cnt in [0,255] the loop of
`HT1621_writeBits(value, cnt)` runs its body exactly cnt times and exits
with its counter equal to cnt, no increment of the counter wrapping; the
trace is cnt six-event groups, so 6*cnt events, and is empty for cnt = 0;
and for cnt > 8 the trace is the eight groups of the bits of value followed
by cnt - 8 groups whose data-line level is LOW. -/
theorem writeBits_terminates_after_cnt_iterations (s : State) (value cnt : Nat)
    (hv : value ≤ 255) (hc : cnt ≤ 255) :
    HT1621_writeBits.control cnt 0 = (cnt, cnt) ∧
    (∀ i, i < cnt → (i + 1) % 256 = i + 1) ∧
    emitted s (HT1621_writeBits s value cnt) =
      bitGroups s._RW_pin s._DATA_pin value cnt ∧
    (emitted s (HT1621_writeBits s value cnt)).length = 6 * cnt ∧
    emitted s (HT1621_writeBits s value 0) = [] ∧
    (8 < cnt →
      emitted s (HT1621_writeBits s value cnt) =
        bitGroups s._RW_pin s._DATA_pin value 8 ++
          sendLevels s._RW_pin s._DATA_pin (List.replicate (cnt - 8) Level.LOW)) := by
  have hv' : value % 256 = value := Nat.mod_eq_of_lt (by omega)
  have hc' : cnt % 256 = cnt := Nat.mod_eq_of_lt (by omega)
  have he : emitted s (HT1621_writeBits s value cnt) =
      bitGroups s._RW_pin s._DATA_pin value cnt := by
    rw [emitted_writeBits, hv', hc']
  refine ⟨?_, ?_, he, ?_, ?_, ?_⟩
  · have := writeBits_control_eq (cnt % 256) cnt 0 (by omega) (by omega)
    rw [hc'] at this
    exact this
  · intro i hi
    exact Nat.mod_eq_of_lt (by omega)
  · rw [he]; exact bitGroups_length _ _ _ _
  · rw [emitted_writeBits]; rfl
  · intro h8
    have hsplit : cnt = 8 + (cnt - 8) := by omega
    rw [he]
    conv_lhs => rw [hsplit]
    rw [bitGroups_add, shifted_out_after_eight value (by omega), bitGroups_zero]

/-- Witness for C20: `HT1621_writeBits(0xff, 10)` on the pins of `main`. -/
theorem writeBits_terminates_after_cnt_iterations_witness :
    HT1621_writeBits.control 10 0 = (10, 10) ∧
    (∀ i, i < 10 → (i + 1) % 256 = i + 1) ∧
    emitted wired (HT1621_writeBits wired 0xff 10) =
      bitGroups wired._RW_pin wired._DATA_pin 0xff 10 ∧
    (emitted wired (HT1621_writeBits wired 0xff 10)).length = 6 * 10 ∧
    emitted wired (HT1621_writeBits wired 0xff 0) = [] ∧
    (8 < 10 →
      emitted wired (HT1621_writeBits wired 0xff 10) =
        bitGroups wired._RW_pin wired._DATA_pin 0xff 8 ++
          sendLevels wired._RW_pin wired._DATA_pin (List.replicate (10 - 8) Level.LOW)) :=
  writeBits_terminates_after_cnt_iterations wired 0xff 10 (by decide) (by decide)

/-! ## The serializer and the frames: levels sent, levels latched -/

theorem emitted_writeBits_levels (s : State) (value cnt : Nat) :
    emitted s (HT1621_writeBits s value cnt) =
      sendLevels s._RW_pin s._DATA_pin (topBits (value % 256) (cnt % 256)) := by
  rw [emitted_writeBits, bitGroups_eq_sendLevels _ _ _ _ (Nat.mod_lt _ (by decide))]

theorem emitted_write_writeLevels (s : State) (address data : Nat) :
    emitted s (HT1621_write s address data) =
      frame s._CS_pin (sendLevels s._RW_pin s._DATA_pin (writeLevels address data)) := by
  rw [emitted_write, writeFrame, writeBody_eq_sendLevels, writeLevels]

theorem emitted_sendCommand_commandLevels (s : State) (cmd : Nat) :
    emitted s (HT1621_sendCommand s cmd) =
      frame s._CS_pin (sendLevels s._RW_pin s._DATA_pin (commandLevels cmd)) := by
  rw [emitted_sendCommand, commandFrame, commandBody, commandLevels, sendLevels_append,
    bitGroups_eq_sendLevels _ _ _ _ (by decide),
    bitGroups_eq_sendLevels _ _ _ _ (Nat.mod_lt _ (by decide))]

theorem latched_sendLevels (rw dat : Nat) (h : dat ≠ rw) (ls : List Level) :
    ∀ (c d : Level), latched rw dat c d (sendLevels rw dat ls) = ls := by
  have h' : rw ≠ dat := fun e => h e.symm
  induction ls with
  | nil => intro c d; rfl
  | cons l ls ih =>
    intro c d
    rw [sendLevels_cons, latched_append, ih]
    cases c <;> cases l <;> simp [bitCell, latched, h, h']

theorem writesTo_sendLevels_other (pin rw dat : Nat) (h1 : rw ≠ pin) (h2 : dat ≠ pin)
    (ls : List Level) : writesTo pin (sendLevels rw dat ls) = [] := by
  induction ls with
  | nil => rfl
  | cons l ls ih =>
    rw [sendLevels_cons, writesTo_append, ih]
    simp [bitCell, writesTo, h1, h2]

theorem sendLevels_split (rw dat : Nat) (hs ts : List Level) (l : Level) :
    sendLevels rw dat (hs ++ l :: ts) =
      (sendLevels rw dat hs ++
        [Event.digitalWrite rw Level.LOW, Event.delayMicroseconds 20]) ++
      Event.digitalWrite dat l ::
        ([Event.delayMicroseconds 20, Event.digitalWrite rw Level.HIGH,
            Event.delayMicroseconds 20] ++ sendLevels rw dat ts) := by
  simp [sendLevels_append, sendLevels_cons, bitCell]

/-- C1: for every value in [0,255] and every bitCount in [1,8], the trace
emitted by `HT1621_writeBits(value, bitCount)` is bitCount bit cells, each
driving the clock LOW, setting the data line and driving the clock HIGH: one
rising clock edge per cell.  The levels set on the data line, read in order
as a binary number with HIGH = 1 and the first bit most significant, equal
`value / 2^(8 - bitCount)`, the top bitCount bits of value.  This holds for
every pin binding; and on distinct data and clock pins these levels are
exactly what a receiver latches at the rising clock edges, whatever the
levels of the two lines before the call. -/
theorem writeBits_latches_top_bits (s : State) (value bitCount : Nat) (c d : Level)
    (hv : value ≤ 255) (_h1 : 1 ≤ bitCount) (h8 : bitCount ≤ 8) :
    emitted s (HT1621_writeBits s value bitCount) =
        sendLevels s._RW_pin s._DATA_pin (topBits value bitCount) ∧
    (topBits value bitCount).length = bitCount ∧
    bitsToNat (topBits value bitCount) = value / 2 ^ (8 - bitCount) ∧
    (s._DATA_pin ≠ s._RW_pin →
      latched s._RW_pin s._DATA_pin c d (emitted s (HT1621_writeBits s value bitCount)) =
        topBits value bitCount) := by
  have hv' : value % 256 = value := Nat.mod_eq_of_lt (by omega)
  have hc' : bitCount % 256 = bitCount := Nat.mod_eq_of_lt (by omega)
  have he := emitted_writeBits_levels s value bitCount
  rw [hv', hc'] at he
  refine ⟨he, topBits_length _ _, bitsToNat_topBits value (by omega) bitCount (by omega), ?_⟩
  intro hpins
  rw [he]
  exact latched_sendLevels _ _ hpins _ _ _

/-- Witness for C1: `HT1621_writeBits(0xa0, 3)` on the pins of `main`; the
three top bits of `0xa0` are 1,0,1 = 5. -/
theorem writeBits_latches_top_bits_witness :
    emitted wired (HT1621_writeBits wired 0xa0 3) =
        sendLevels wired._RW_pin wired._DATA_pin (topBits 0xa0 3) ∧
    (topBits 0xa0 3).length = 3 ∧
    bitsToNat (topBits 0xa0 3) = 0xa0 / 2 ^ (8 - 3) ∧
    (wired._DATA_pin ≠ wired._RW_pin →
      latched wired._RW_pin wired._DATA_pin Level.HIGH Level.HIGH
          (emitted wired (HT1621_writeBits wired 0xa0 3)) =
        topBits 0xa0 3) :=
  writeBits_latches_top_bits wired 0xa0 3 Level.HIGH Level.HIGH
    (by decide) (by decide) (by decide)

/-- C3: for every cmd in [0,255], `HT1621_sendCommand(cmd)` emits one
frame: the chip-select assert, 12 bit cells, the chip-select release.  The
first 4 levels sent are 1,0,0,0, the top four bits of `COMMAND_MODE`, and the
next 8 read, first bit most significant, as `cmd`.  This holds for every pin
binding; and on three pairwise distinct pins chip-select is written only at
the two ends of the frame and the 12 levels are exactly what a receiver
latches at the rising clock edges. -/
theorem sendCommand_frame_bits (s : State) (cmd : Nat) (c d : Level) (hc : cmd ≤ 255) :
    emitted s (HT1621_sendCommand s cmd) =
        frame s._CS_pin (sendLevels s._RW_pin s._DATA_pin (commandLevels cmd)) ∧
    (commandLevels cmd).length = 12 ∧
    (commandLevels cmd).take 4 = [Level.HIGH, Level.LOW, Level.LOW, Level.LOW] ∧
    bitsToNat ((commandLevels cmd).drop 4) = cmd ∧
    (s._CS_pin ≠ s._RW_pin → s._CS_pin ≠ s._DATA_pin → s._DATA_pin ≠ s._RW_pin →
      writesTo s._CS_pin (emitted s (HT1621_sendCommand s cmd)) =
          [Level.LOW, Level.HIGH] ∧
      latched s._RW_pin s._DATA_pin c d (emitted s (HT1621_sendCommand s cmd)) =
          commandLevels cmd) := by
  have hc' : cmd % 256 = cmd := Nat.mod_eq_of_lt (by omega)
  have hm : topBits COMMAND_MODE 4 = [Level.HIGH, Level.LOW, Level.LOW, Level.LOW] := by
    decide
  have hl : commandLevels cmd =
      [Level.HIGH, Level.LOW, Level.LOW, Level.LOW] ++ topBits cmd 8 := by
    rw [commandLevels, hm, hc']
  have hl8 := topBits_length 8 cmd
  have hb8 := bitsToNat_topBits cmd (by omega) 8 (by decide)
  refine ⟨emitted_sendCommand_commandLevels s cmd, ?_, ?_, ?_, ?_⟩
  · rw [hl, List.length_append, hl8]; rfl
  · rw [hl]; rfl
  · have e : ([Level.HIGH, Level.LOW, Level.LOW, Level.LOW] ++ topBits cmd 8).drop 4 =
        topBits cmd 8 := rfl
    rw [hl, e, hb8]; simp
  · intro hcr hcd hdr
    rw [emitted_sendCommand_commandLevels, writesTo_frame, latched_frame _ _ _ _ _ _ hcr hcd,
      writesTo_sendLevels_other _ _ _ (fun x => hcr x.symm) (fun x => hcd x.symm),
      latched_sendLevels _ _ hdr]
    exact ⟨rfl, rfl⟩

/-- Witness for C3: `HT1621_sendCommand(0x52)` on the pins of `main`. -/
theorem sendCommand_frame_bits_witness :
    emitted wired (HT1621_sendCommand wired 0x52) =
        frame wired._CS_pin
          (sendLevels wired._RW_pin wired._DATA_pin (commandLevels 0x52)) ∧
    (commandLevels 0x52).length = 12 ∧
    (commandLevels 0x52).take 4 = [Level.HIGH, Level.LOW, Level.LOW, Level.LOW] ∧
    bitsToNat ((commandLevels 0x52).drop 4) = 0x52 ∧
    (wired._CS_pin ≠ wired._RW_pin → wired._CS_pin ≠ wired._DATA_pin →
      wired._DATA_pin ≠ wired._RW_pin →
      writesTo wired._CS_pin (emitted wired (HT1621_sendCommand wired 0x52)) =
          [Level.LOW, Level.HIGH] ∧
      latched wired._RW_pin wired._DATA_pin Level.HIGH Level.HIGH
          (emitted wired (HT1621_sendCommand wired 0x52)) =
          commandLevels 0x52) :=
  sendCommand_frame_bits wired 0x52 Level.HIGH Level.HIGH (by decide)

/-- C10: for every value in [0,255] and bitCount in [1,8], the trace of
`HT1621_writeBits(value, bitCount)` is exactly bitCount repetitions of the
six-event group clock LOW, delay 20 us, data := (bit 7 of the current value
? HIGH : LOW), delay 20 us, clock HIGH, delay 20 us, the value being shifted
left by one (mod 256) after each group; the trace has 6*bitCount events and a
total delay of 60*bitCount microseconds; and the data write of every bit
comes straight after that bit's clock LOW and its delay, and before that
bit's clock HIGH.  All of this holds for every pin binding; and on distinct
data and clock pins every write to the data pin finds the clock line LOW. -/
theorem writeBits_six_event_groups (s : State) (value bitCount : Nat) (c : Level)
    (hv : value ≤ 255) (_h1 : 1 ≤ bitCount) (h8 : bitCount ≤ 8) :
    emitted s (HT1621_writeBits s value bitCount) =
        bitGroups s._RW_pin s._DATA_pin value bitCount ∧
    (emitted s (HT1621_writeBits s value bitCount)).length = 6 * bitCount ∧
    totalDelay (emitted s (HT1621_writeBits s value bitCount)) = 60 * bitCount ∧
    (∀ (hs ts : List Level) (l : Level), topBits value bitCount = hs ++ l :: ts →
      emitted s (HT1621_writeBits s value bitCount) =
        (sendLevels s._RW_pin s._DATA_pin hs ++
          [Event.digitalWrite s._RW_pin Level.LOW, Event.delayMicroseconds 20]) ++
        Event.digitalWrite s._DATA_pin l ::
          ([Event.delayMicroseconds 20, Event.digitalWrite s._RW_pin Level.HIGH,
              Event.delayMicroseconds 20] ++ sendLevels s._RW_pin s._DATA_pin ts)) ∧
    (s._DATA_pin ≠ s._RW_pin →
      ∀ (pre post : List Event) (l : Level),
        emitted s (HT1621_writeBits s value bitCount) =
          pre ++ Event.digitalWrite s._DATA_pin l :: post →
        lineLevel s._RW_pin c pre = Level.LOW) := by
  have hv' : value % 256 = value := Nat.mod_eq_of_lt (by omega)
  have hc' : bitCount % 256 = bitCount := Nat.mod_eq_of_lt (by omega)
  have he : emitted s (HT1621_writeBits s value bitCount) =
      bitGroups s._RW_pin s._DATA_pin value bitCount := by
    rw [emitted_writeBits, hv', hc']
  have hl := emitted_writeBits_levels s value bitCount
  rw [hv', hc'] at hl
  refine ⟨he, ?_, ?_, ?_, ?_⟩
  · rw [he]; exact bitGroups_length _ _ _ _
  · rw [he]; exact totalDelay_bitGroups _ _ _ _
  · intro hs ts l hsplit
    rw [hl, hsplit]
    exact sendLevels_split _ _ _ _ _
  · intro hpins pre post l e
    rw [he] at e
    exact bitGroups_data_write _ _ hpins _ _ _ _ _ _ e

/-- Witness for C10: `HT1621_writeBits(0xa0, 3)` on the pins of `main`, the
clock line being HIGH before the call. -/
theorem writeBits_six_event_groups_witness :
    emitted wired (HT1621_writeBits wired 0xa0 3) =
        bitGroups wired._RW_pin wired._DATA_pin 0xa0 3 ∧
    (emitted wired (HT1621_writeBits wired 0xa0 3)).length = 6 * 3 ∧
    totalDelay (emitted wired (HT1621_writeBits wired 0xa0 3)) = 60 * 3 ∧
    (∀ (hs ts : List Level) (l : Level), topBits 0xa0 3 = hs ++ l :: ts →
      emitted wired (HT1621_writeBits wired 0xa0 3) =
        (sendLevels wired._RW_pin wired._DATA_pin hs ++
          [Event.digitalWrite wired._RW_pin Level.LOW, Event.delayMicroseconds 20]) ++
        Event.digitalWrite wired._DATA_pin l ::
          ([Event.delayMicroseconds 20, Event.digitalWrite wired._RW_pin Level.HIGH,
              Event.delayMicroseconds 20] ++ sendLevels wired._RW_pin wired._DATA_pin ts)) ∧
    (wired._DATA_pin ≠ wired._RW_pin →
      ∀ (pre post : List Event) (l : Level),
        emitted wired (HT1621_writeBits wired 0xa0 3) =
          pre ++ Event.digitalWrite wired._DATA_pin l :: post →
        lineLevel wired._RW_pin Level.HIGH pre = Level.LOW) :=
  writeBits_six_event_groups wired 0xa0 3 Level.HIGH (by decide) (by decide) (by decide)

/-- C17: for all addresses a, a' in [0,31] and all data bytes d, d' in
[0,255], if `HT1621_write(a, d)` and `HT1621_write(a', d')` emit the same
trace then a = a' and d = d'.  The frame of `HT1621_write(a, d)` clocks 17
levels out that decode to (a, d): the first three read 5 (binary 101), the
next six read twice the address and the last eight read the data.  This
holds for every pin binding; and on three pairwise distinct pins those 17
levels are exactly what sampling the data line at the rising clock edges of
the frame returns. -/
theorem write_frames_decodable (s : State) (a a' d d' : Nat) (c0 d0 : Level)
    (ha : a ≤ 31) (ha' : a' ≤ 31) (hd : d ≤ 255) (hd' : d' ≤ 255) :
    (emitted s (HT1621_write s a d) = emitted s (HT1621_write s a' d') →
      a = a' ∧ d = d') ∧
    emitted s (HT1621_write s a d) =
      frame s._CS_pin (sendLevels s._RW_pin s._DATA_pin (writeLevels a d)) ∧
    (writeLevels a d).length = 17 ∧
    bitsToNat ((writeLevels a d).take 3) = 5 ∧
    bitsToNat (((writeLevels a d).drop 3).take 6) / 2 = a ∧
    bitsToNat ((writeLevels a d).drop 9) = d ∧
    (s._CS_pin ≠ s._RW_pin → s._CS_pin ≠ s._DATA_pin → s._DATA_pin ≠ s._RW_pin →
      latched s._RW_pin s._DATA_pin c0 d0 (emitted s (HT1621_write s a d)) =
        writeLevels a d) := by
  have e1 : a % 256 = a := Nat.mod_eq_of_lt (by omega)
  have e3 : d % 256 = d := Nat.mod_eq_of_lt (by omega)
  have hm : topBits WRITE_MODE 3 = [Level.HIGH, Level.LOW, Level.HIGH] := by decide
  have hl6 := topBits_length 6 ((a <<< 3) % 256)
  have hl8 := topBits_length 8 d
  have hb6 := bitsToNat_topBits ((a <<< 3) % 256) (Nat.mod_lt _ (by decide)) 6 (by decide)
  have hb8 := bitsToNat_topBits d (by omega) 8 (by decide)
  have hf := take_drop_fields [Level.HIGH, Level.LOW, Level.HIGH]
    (topBits ((a <<< 3) % 256) 6) (topBits d 8) 3 6 rfl hl6
  have hw : writeLevels a d =
      [Level.HIGH, Level.LOW, Level.HIGH] ++
        (topBits ((a <<< 3) % 256) 6 ++ topBits d 8) := by
    rw [writeLevels, hm, e1, e3]
  refine ⟨?_, emitted_write_writeLevels s a d, ?_, ?_, ?_, ?_, ?_⟩
  · intro h
    rw [emitted_write, emitted_write] at h
    exact writeFrame_injective _ _ _ _ _ _ _ ha ha' hd hd' h
  · rw [hw]; simp [hl6, hl8]
  · rw [hw, hf.1]; decide
  · rw [hw, hf.2.1, hb6, Nat.shiftLeft_eq]
    simp
    omega
  · rw [hw, hf.2.2, hb8]; simp
  · intro hcr hcd hdr
    rw [latched_write s a d c0 d0 hcr hcd hdr, writeLevels]

/-- Witness for C17: `HT1621_write(5, 0xf5)` on the pins of `main`. -/
theorem write_frames_decodable_witness :
    (emitted wired (HT1621_write wired 5 0xf5) = emitted wired (HT1621_write wired 5 0xf5) →
      5 = 5 ∧ 0xf5 = 0xf5) ∧
    emitted wired (HT1621_write wired 5 0xf5) =
      frame wired._CS_pin (sendLevels wired._RW_pin wired._DATA_pin (writeLevels 5 0xf5)) ∧
    (writeLevels 5 0xf5).length = 17 ∧
    bitsToNat ((writeLevels 5 0xf5).take 3) = 5 ∧
    bitsToNat (((writeLevels 5 0xf5).drop 3).take 6) / 2 = 5 ∧
    bitsToNat ((writeLevels 5 0xf5).drop 9) = 0xf5 ∧
    (wired._CS_pin ≠ wired._RW_pin → wired._CS_pin ≠ wired._DATA_pin →
      wired._DATA_pin ≠ wired._RW_pin →
      latched wired._RW_pin wired._DATA_pin Level.HIGH Level.HIGH
          (emitted wired (HT1621_write wired 5 0xf5)) =
        writeLevels 5 0xf5) :=
  write_frames_decodable wired 5 5 0xf5 0xf5 Level.HIGH Level.HIGH
    (by decide) (by decide) (by decide) (by decide)

end HT1621
